import Mathlib

/-
  Verification of the swappy2 annotation editor against its design document.

  The development shallowly embeds the relevant C sources:
    * src/scale2x.c      : the EPX/Scale2x upscaler, the multi-pass driver
                           `scale_nx`, and the viewport extractor clamping.
    * src/application.c  : undo/redo/commit on the annotation lists, the crop
                           transform, the draw-path decision, and the
                           zoom-at-cursor scroll handler.
    * src/render.c       : the blur (pixelation) cache discipline.

  Pixel buffers are modelled as total functions from flat row-major indices
  (`Nat → Nat`); a 32-bit ARGB pixel is a `Nat` and pixel equality is exact
  equality, exactly as in the C (`pixels_equal` is `a == b` on `uint32_t`).
  C `double` arithmetic is modelled over `ℚ`, C `int` over `ℤ`, with the
  C truncating double→int cast made explicit (`cint`).
-/

namespace Swappy

/-- One store into a flat pixel buffer: models `dst[i] = v`. -/
def writePix (dst : Nat → Nat) (i v : Nat) : Nat → Nat :=
  fun j => if j = i then v else dst j

/-- `pixels_equal` (scale2x.c line 38): exact integer pixel-value match. -/
def pixels_equal (a b : Nat) : Bool := a == b

/-- The four values written for the 2×2 destination block of source pixel
`(x, y)` — scale2x.c lines 69–91.  Neighbors `A` (up), `B` (right), `C`
(left), `D` (down) are clamped at the edges by reusing `P`.  Returned in
write order: `(dst[dy*dw+dx], dst[dy*dw+dx+1], dst[(dy+1)*dw+dx],
dst[(dy+1)*dw+dx+1])`. -/
def scale2x_block (src : Nat → Nat) (w h x y : Nat) : Nat × Nat × Nat × Nat :=
  let P := src (y * w + x)
  let A := if 0 < y then src ((y - 1) * w + x) else P
  let B := if x < w - 1 then src (y * w + x + 1) else P
  let C := if 0 < x then src (y * w + x - 1) else P
  let D := if y < h - 1 then src ((y + 1) * w + x) else P
  let ca := pixels_equal C A
  let ab := pixels_equal A B
  let bd := pixels_equal B D
  let dc := pixels_equal D C
  let cd := pixels_equal C D
  let ac := pixels_equal A C
  let ba := pixels_equal B A
  let db := pixels_equal D B
  ( if ca && !cd && !ab then A else P,
    if ab && !ac && !bd then B else P,
    if dc && !db && !ac then C else P,
    if bd && !ba && !dc then D else P )

/-- Body of the inner loop of `scale2x` (scale2x.c lines 67–92): the four
stores into `dst` for source pixel `(x, y)`, with `dw = w * 2`, `dx = x * 2`,
`dy = y * 2` inlined into the destination indices. -/
def scale2x_pixel (src : Nat → Nat) (w h : Nat) (dst : Nat → Nat) (y x : Nat) :
    Nat → Nat :=
  let b := scale2x_block src w h x y
  writePix (writePix (writePix (writePix dst
    (y * 2 * (w * 2) + x * 2) b.1)
    (y * 2 * (w * 2) + x * 2 + 1) b.2.1)
    ((y * 2 + 1) * (w * 2) + x * 2) b.2.2.1)
    ((y * 2 + 1) * (w * 2) + x * 2 + 1) b.2.2.2

/-- One iteration of the outer loop of `scale2x` (scale2x.c line 66):
process row `y` of the source. -/
def scale2x_row (src : Nat → Nat) (w h : Nat) (dst : Nat → Nat) (y : Nat) :
    Nat → Nat :=
  (List.range w).foldl (fun d x => scale2x_pixel src w h d y x) dst

/-- `scale2x` (scale2x.c lines 63–94): the caller supplies `dst`; the double
loop stores the 2×2 block of every source pixel into it. -/
def scale2x (src dst : Nat → Nat) (w h : Nat) : Nat → Nat :=
  (List.range h).foldl (fun d y => scale2x_row src w h d y) dst

@[simp] theorem writePix_same (dst : Nat → Nat) (i v : Nat) :
    writePix dst i v i = v := by simp [writePix]

theorem writePix_other (dst : Nat → Nat) (i v j : Nat) (h : j ≠ i) :
    writePix dst i v j = dst j := by simp [writePix, h]

/-- Row/column decomposition of flat indices is injective. -/
theorem row_col_inj (dw r r' a b : Nat) (ha : a < dw) (hb : b < dw)
    (h : r * dw + a = r' * dw + b) : r = r' ∧ a = b := by
  have h1 : (r * dw + a) % dw = a := by
    rw [Nat.add_comm, Nat.add_mul_mod_self_right]; exact Nat.mod_eq_of_lt ha
  have h2 : (r' * dw + b) % dw = b := by
    rw [Nat.add_comm, Nat.add_mul_mod_self_right]; exact Nat.mod_eq_of_lt hb
  have hab : a = b := by rw [← h1, ← h2, h]
  refine ⟨?_, hab⟩
  have hdw : 0 < dw := Nat.lt_of_le_of_lt (Nat.zero_le a) ha
  have : r * dw = r' * dw := by omega
  exact Nat.eq_of_mul_eq_mul_right hdw this

/-- The destination indices written for distinct `(x, y, corner)` are
distinct, provided the column offsets stay inside the doubled row. -/
theorem scale2x_idx_ne (w x y r c x' y' r' c' : Nat)
    (hx : x < w) (hx' : x' < w) (hr : r ≤ 1) (hc : c ≤ 1) (hr' : r' ≤ 1)
    (hc' : c' ≤ 1) (hne : x ≠ x' ∨ y ≠ y' ∨ r ≠ r' ∨ c ≠ c') :
    (y * 2 + r) * (w * 2) + (x * 2 + c) ≠ (y' * 2 + r') * (w * 2) + (x' * 2 + c') := by
  intro h
  have hcol : x * 2 + c < w * 2 := by omega
  have hcol' : x' * 2 + c' < w * 2 := by omega
  obtain ⟨hrow, hcc⟩ := row_col_inj (w * 2) _ _ _ _ hcol hcol' h
  omega

/-- The body for source pixel `(x, y)` leaves every destination index other
than its four targets unchanged. -/
theorem scale2x_pixel_frame (src : Nat → Nat) (w h : Nat) (dst : Nat → Nat)
    (y x i : Nat)
    (h00 : i ≠ y * 2 * (w * 2) + x * 2)
    (h01 : i ≠ y * 2 * (w * 2) + x * 2 + 1)
    (h10 : i ≠ (y * 2 + 1) * (w * 2) + x * 2)
    (h11 : i ≠ (y * 2 + 1) * (w * 2) + x * 2 + 1) :
    scale2x_pixel src w h dst y x i = dst i := by
  simp only [scale2x_pixel]
  rw [writePix_other _ _ _ _ h11, writePix_other _ _ _ _ h10,
    writePix_other _ _ _ _ h01, writePix_other _ _ _ _ h00]

/-- The body for source pixel `(x, y)` stores the four block values at its
four destination indices. -/
theorem scale2x_pixel_get (src : Nat → Nat) (w h : Nat) (dst : Nat → Nat)
    (y x : Nat) (hx : x < w) :
    scale2x_pixel src w h dst y x (y * 2 * (w * 2) + x * 2) =
        (scale2x_block src w h x y).1 ∧
      scale2x_pixel src w h dst y x (y * 2 * (w * 2) + x * 2 + 1) =
        (scale2x_block src w h x y).2.1 ∧
      scale2x_pixel src w h dst y x ((y * 2 + 1) * (w * 2) + x * 2) =
        (scale2x_block src w h x y).2.2.1 ∧
      scale2x_pixel src w h dst y x ((y * 2 + 1) * (w * 2) + x * 2 + 1) =
        (scale2x_block src w h x y).2.2.2 := by
  have n1 : y * 2 * (w * 2) + x * 2 ≠ (y * 2 + 1) * (w * 2) + x * 2 + 1 :=
    scale2x_idx_ne w x y 0 0 x y 1 1 hx hx (by omega) (by omega) (by omega) (by omega) (by omega)
  have n2 : y * 2 * (w * 2) + x * 2 ≠ (y * 2 + 1) * (w * 2) + x * 2 :=
    scale2x_idx_ne w x y 0 0 x y 1 0 hx hx (by omega) (by omega) (by omega) (by omega) (by omega)
  have n3 : y * 2 * (w * 2) + x * 2 ≠ y * 2 * (w * 2) + x * 2 + 1 :=
    scale2x_idx_ne w x y 0 0 x y 0 1 hx hx (by omega) (by omega) (by omega) (by omega) (by omega)
  have n4 : y * 2 * (w * 2) + x * 2 + 1 ≠ (y * 2 + 1) * (w * 2) + x * 2 + 1 :=
    scale2x_idx_ne w x y 0 1 x y 1 1 hx hx (by omega) (by omega) (by omega) (by omega) (by omega)
  have n5 : y * 2 * (w * 2) + x * 2 + 1 ≠ (y * 2 + 1) * (w * 2) + x * 2 :=
    scale2x_idx_ne w x y 0 1 x y 1 0 hx hx (by omega) (by omega) (by omega) (by omega) (by omega)
  have n6 : (y * 2 + 1) * (w * 2) + x * 2 ≠ (y * 2 + 1) * (w * 2) + x * 2 + 1 :=
    scale2x_idx_ne w x y 1 0 x y 1 1 hx hx (by omega) (by omega) (by omega) (by omega) (by omega)
  refine ⟨?_, ?_, ?_, ?_⟩ <;> simp only [scale2x_pixel]
  · rw [writePix_other _ _ _ _ n1, writePix_other _ _ _ _ n2,
      writePix_other _ _ _ _ n3, writePix_same]
  · rw [writePix_other _ _ _ _ n4, writePix_other _ _ _ _ n5, writePix_same]
  · rw [writePix_other _ _ _ _ n6, writePix_same]
  · rw [writePix_same]

/-- Folding the pixel body over a list of columns leaves untargeted indices
unchanged. -/
theorem foldl_pixel_frame (src : Nat → Nat) (w h y : Nat) (l : List Nat)
    (dst : Nat → Nat) (i : Nat)
    (hl : ∀ x' ∈ l,
      i ≠ y * 2 * (w * 2) + x' * 2 ∧ i ≠ y * 2 * (w * 2) + x' * 2 + 1 ∧
      i ≠ (y * 2 + 1) * (w * 2) + x' * 2 ∧
      i ≠ (y * 2 + 1) * (w * 2) + x' * 2 + 1) :
    (l.foldl (fun d x => scale2x_pixel src w h d y x) dst) i = dst i := by
  induction l generalizing dst with
  | nil => rfl
  | cons a t ih =>
    rw [List.foldl_cons, ih _ (fun x' hx' => hl x' (List.mem_cons_of_mem a hx'))]
    obtain ⟨n0, n1, n2, n3⟩ := hl a (List.mem_cons_self a t)
    exact scale2x_pixel_frame src w h dst y a i n0 n1 n2 n3

/-- Folding the pixel body over a duplicate-free list of in-range columns
containing `x` stores the block of `(x, y)` at its four indices. -/
theorem foldl_pixel_get (src : Nat → Nat) (w h y : Nat) (l : List Nat)
    (hnd : l.Nodup) (hlt : ∀ x' ∈ l, x' < w) (x : Nat) (hmem : x ∈ l) :
    ∀ dst : Nat → Nat,
      (l.foldl (fun d x => scale2x_pixel src w h d y x) dst)
          (y * 2 * (w * 2) + x * 2) = (scale2x_block src w h x y).1 ∧
      (l.foldl (fun d x => scale2x_pixel src w h d y x) dst)
          (y * 2 * (w * 2) + x * 2 + 1) = (scale2x_block src w h x y).2.1 ∧
      (l.foldl (fun d x => scale2x_pixel src w h d y x) dst)
          ((y * 2 + 1) * (w * 2) + x * 2) = (scale2x_block src w h x y).2.2.1 ∧
      (l.foldl (fun d x => scale2x_pixel src w h d y x) dst)
          ((y * 2 + 1) * (w * 2) + x * 2 + 1) = (scale2x_block src w h x y).2.2.2 := by
  induction l with
  | nil => cases hmem
  | cons a t ih =>
    intro dst
    rw [List.foldl_cons]
    have hx : x < w := hlt x hmem
    by_cases hxa : x = a
    · subst hxa
      have hat : x ∉ t := (List.nodup_cons.mp hnd).1
      have hfr : ∀ x' ∈ t,
          ∀ r c, r ≤ 1 → c ≤ 1 →
          (y * 2 + r) * (w * 2) + (x * 2 + c) ≠ y * 2 * (w * 2) + x' * 2 ∧
          (y * 2 + r) * (w * 2) + (x * 2 + c) ≠ y * 2 * (w * 2) + x' * 2 + 1 ∧
          (y * 2 + r) * (w * 2) + (x * 2 + c) ≠ (y * 2 + 1) * (w * 2) + x' * 2 ∧
          (y * 2 + r) * (w * 2) + (x * 2 + c) ≠ (y * 2 + 1) * (w * 2) + x' * 2 + 1 := by
        intro x' hx' r c hr hc
        have hxx : x ≠ x' := fun he => hat (he ▸ hx')
        have hx'w : x' < w := hlt x' (List.mem_cons_of_mem _ hx')
        exact ⟨scale2x_idx_ne w x y r c x' y 0 0 hx hx'w hr hc (by omega) (by omega) (by omega),
          scale2x_idx_ne w x y r c x' y 0 1 hx hx'w hr hc (by omega) (by omega) (by omega),
          scale2x_idx_ne w x y r c x' y 1 0 hx hx'w hr hc (by omega) (by omega) (by omega),
          scale2x_idx_ne w x y r c x' y 1 1 hx hx'w hr hc (by omega) (by omega) (by omega)⟩
      obtain ⟨g0, g1, g2, g3⟩ := scale2x_pixel_get src w h dst y x hx
      refine ⟨?_, ?_, ?_, ?_⟩
      · rw [foldl_pixel_frame src w h y t _ (y * 2 * (w * 2) + x * 2)
          (fun x' hx' => hfr x' hx' 0 0 (by omega) (by omega))]
        exact g0
      · rw [foldl_pixel_frame src w h y t _ (y * 2 * (w * 2) + x * 2 + 1)
          (fun x' hx' => hfr x' hx' 0 1 (by omega) (by omega))]
        exact g1
      · rw [foldl_pixel_frame src w h y t _ ((y * 2 + 1) * (w * 2) + x * 2)
          (fun x' hx' => hfr x' hx' 1 0 (by omega) (by omega))]
        exact g2
      · rw [foldl_pixel_frame src w h y t _ ((y * 2 + 1) * (w * 2) + x * 2 + 1)
          (fun x' hx' => hfr x' hx' 1 1 (by omega) (by omega))]
        exact g3
    · have hmt : x ∈ t := by
        rcases List.mem_cons.mp hmem with he | ht
        · exact absurd he hxa
        · exact ht
      exact ih (List.nodup_cons.mp hnd).2
        (fun x' hx' => hlt x' (List.mem_cons_of_mem a hx')) hmt _

/-- Row `y` stores the block of every in-range column `x` of that row. -/
theorem scale2x_row_get (src : Nat → Nat) (w h : Nat) (dst : Nat → Nat)
    (y x : Nat) (hx : x < w) :
    scale2x_row src w h dst y (y * 2 * (w * 2) + x * 2) =
        (scale2x_block src w h x y).1 ∧
      scale2x_row src w h dst y (y * 2 * (w * 2) + x * 2 + 1) =
        (scale2x_block src w h x y).2.1 ∧
      scale2x_row src w h dst y ((y * 2 + 1) * (w * 2) + x * 2) =
        (scale2x_block src w h x y).2.2.1 ∧
      scale2x_row src w h dst y ((y * 2 + 1) * (w * 2) + x * 2 + 1) =
        (scale2x_block src w h x y).2.2.2 :=
  foldl_pixel_get src w h y (List.range w) (List.nodup_range w)
    (fun x' hx' => List.mem_range.mp hx') x (List.mem_range.mpr hx) dst

/-- Row `y` leaves indices targeted by no in-range column unchanged. -/
theorem scale2x_row_frame (src : Nat → Nat) (w h : Nat) (dst : Nat → Nat)
    (y i : Nat)
    (hl : ∀ x' < w,
      i ≠ y * 2 * (w * 2) + x' * 2 ∧ i ≠ y * 2 * (w * 2) + x' * 2 + 1 ∧
      i ≠ (y * 2 + 1) * (w * 2) + x' * 2 ∧
      i ≠ (y * 2 + 1) * (w * 2) + x' * 2 + 1) :
    scale2x_row src w h dst y i = dst i :=
  foldl_pixel_frame src w h y (List.range w) dst i
    (fun x' hx' => hl x' (List.mem_range.mp hx'))

/-- Folding rows over a list of row indices leaves untargeted indices
unchanged. -/
theorem foldl_row_frame (src : Nat → Nat) (w h : Nat) (l : List Nat)
    (dst : Nat → Nat) (i : Nat)
    (hl : ∀ y' ∈ l, ∀ x' < w,
      i ≠ y' * 2 * (w * 2) + x' * 2 ∧ i ≠ y' * 2 * (w * 2) + x' * 2 + 1 ∧
      i ≠ (y' * 2 + 1) * (w * 2) + x' * 2 ∧
      i ≠ (y' * 2 + 1) * (w * 2) + x' * 2 + 1) :
    (l.foldl (fun d y => scale2x_row src w h d y) dst) i = dst i := by
  induction l generalizing dst with
  | nil => rfl
  | cons a t ih =>
    rw [List.foldl_cons, ih _ (fun y' hy' => hl y' (List.mem_cons_of_mem a hy'))]
    exact scale2x_row_frame src w h dst a i (hl a (List.mem_cons_self a t))

/-- Folding rows over a duplicate-free list containing `y` stores the block
of `(x, y)` at its four indices, for every in-range `x`. -/
theorem foldl_row_get (src : Nat → Nat) (w h : Nat) (l : List Nat)
    (hnd : l.Nodup) (x y : Nat) (hx : x < w) (hmem : y ∈ l) :
    ∀ dst : Nat → Nat,
      (l.foldl (fun d y => scale2x_row src w h d y) dst)
          (y * 2 * (w * 2) + x * 2) = (scale2x_block src w h x y).1 ∧
      (l.foldl (fun d y => scale2x_row src w h d y) dst)
          (y * 2 * (w * 2) + x * 2 + 1) = (scale2x_block src w h x y).2.1 ∧
      (l.foldl (fun d y => scale2x_row src w h d y) dst)
          ((y * 2 + 1) * (w * 2) + x * 2) = (scale2x_block src w h x y).2.2.1 ∧
      (l.foldl (fun d y => scale2x_row src w h d y) dst)
          ((y * 2 + 1) * (w * 2) + x * 2 + 1) = (scale2x_block src w h x y).2.2.2 := by
  induction l with
  | nil => cases hmem
  | cons a t ih =>
    intro dst
    rw [List.foldl_cons]
    by_cases hya : y = a
    · subst hya
      have hat : y ∉ t := (List.nodup_cons.mp hnd).1
      have hfr : ∀ y' ∈ t, ∀ r c, r ≤ 1 → c ≤ 1 → ∀ x' < w,
          (y * 2 + r) * (w * 2) + (x * 2 + c) ≠ y' * 2 * (w * 2) + x' * 2 ∧
          (y * 2 + r) * (w * 2) + (x * 2 + c) ≠ y' * 2 * (w * 2) + x' * 2 + 1 ∧
          (y * 2 + r) * (w * 2) + (x * 2 + c) ≠ (y' * 2 + 1) * (w * 2) + x' * 2 ∧
          (y * 2 + r) * (w * 2) + (x * 2 + c) ≠ (y' * 2 + 1) * (w * 2) + x' * 2 + 1 := by
        intro y' hy' r c hr hc x' hx'
        have hyy : y ≠ y' := fun he => hat (he ▸ hy')
        exact ⟨scale2x_idx_ne w x y r c x' y' 0 0 hx hx' hr hc (by omega) (by omega) (by omega),
          scale2x_idx_ne w x y r c x' y' 0 1 hx hx' hr hc (by omega) (by omega) (by omega),
          scale2x_idx_ne w x y r c x' y' 1 0 hx hx' hr hc (by omega) (by omega) (by omega),
          scale2x_idx_ne w x y r c x' y' 1 1 hx hx' hr hc (by omega) (by omega) (by omega)⟩
      obtain ⟨g0, g1, g2, g3⟩ := scale2x_row_get src w h dst y x hx
      refine ⟨?_, ?_, ?_, ?_⟩
      · rw [foldl_row_frame src w h t _ (y * 2 * (w * 2) + x * 2)
          (fun y' hy' => hfr y' hy' 0 0 (by omega) (by omega))]
        exact g0
      · rw [foldl_row_frame src w h t _ (y * 2 * (w * 2) + x * 2 + 1)
          (fun y' hy' => hfr y' hy' 0 1 (by omega) (by omega))]
        exact g1
      · rw [foldl_row_frame src w h t _ ((y * 2 + 1) * (w * 2) + x * 2)
          (fun y' hy' => hfr y' hy' 1 0 (by omega) (by omega))]
        exact g2
      · rw [foldl_row_frame src w h t _ ((y * 2 + 1) * (w * 2) + x * 2 + 1)
          (fun y' hy' => hfr y' hy' 1 1 (by omega) (by omega))]
        exact g3
    · have hmt : y ∈ t := by
        rcases List.mem_cons.mp hmem with he | ht
        · exact absurd he hya
        · exact ht
      exact ih (List.nodup_cons.mp hnd).2 hmt _

/-- Pointwise characterisation of `scale2x`: for every source pixel `(x, y)`
the four destination entries of its 2×2 block hold the block values. -/
theorem scale2x_get (src dst : Nat → Nat) (w h x y : Nat)
    (hx : x < w) (hy : y < h) :
    scale2x src dst w h (y * 2 * (w * 2) + x * 2) =
        (scale2x_block src w h x y).1 ∧
      scale2x src dst w h (y * 2 * (w * 2) + x * 2 + 1) =
        (scale2x_block src w h x y).2.1 ∧
      scale2x src dst w h ((y * 2 + 1) * (w * 2) + x * 2) =
        (scale2x_block src w h x y).2.2.1 ∧
      scale2x src dst w h ((y * 2 + 1) * (w * 2) + x * 2 + 1) =
        (scale2x_block src w h x y).2.2.2 :=
  foldl_row_get src w h (List.range h) (List.nodup_range h) x y hx
    (List.mem_range.mpr hy) dst

/-- `scale2x` writes only inside the `2W × 2H` destination buffer: every flat
index at or beyond `(2h) * (2w)` keeps the caller-supplied contents. -/
theorem scale2x_frame_ge (src dst : Nat → Nat) (w h i : Nat)
    (hi : h * 2 * (w * 2) ≤ i) :
    scale2x src dst w h i = dst i := by
  apply foldl_row_frame
  intro y' hy' x' hx'
  have hyh : y' < h := List.mem_range.mp hy'
  have hb : ∀ r c : Nat, r ≤ 1 → c ≤ 1 →
      (y' * 2 + r) * (w * 2) + (x' * 2 + c) < h * 2 * (w * 2) := by
    intro r c hr hc
    have h1 : (y' * 2 + r) * (w * 2) + (x' * 2 + c) <
        (y' * 2 + r) * (w * 2) + w * 2 := Nat.add_lt_add_left (by omega) _
    have h2 : (y' * 2 + r) * (w * 2) + w * 2 = (y' * 2 + r + 1) * (w * 2) :=
      (Nat.succ_mul _ _).symm
    have h3 : (y' * 2 + r + 1) * (w * 2) ≤ h * 2 * (w * 2) :=
      Nat.mul_le_mul_right _ (by omega)
    omega
  refine ⟨?_, ?_, ?_, ?_⟩
  · exact fun he => absurd (he ▸ hi) (Nat.not_le_of_lt (hb 0 0 (by omega) (by omega)))
  · exact fun he => absurd (he ▸ hi) (Nat.not_le_of_lt (hb 0 1 (by omega) (by omega)))
  · exact fun he => absurd (he ▸ hi) (Nat.not_le_of_lt (hb 1 0 (by omega) (by omega)))
  · exact fun he => absurd (he ▸ hi) (Nat.not_le_of_lt (hb 1 1 (by omega) (by omega)))

/-- The centre sample `P` of source pixel `(x, y)` (scale2x.c line 69). -/
def epx_P (src : Nat → Nat) (w x y : Nat) : Nat := src (y * w + x)

/-- The up-neighbor `A`, clamped to `P` on the top edge (line 70). -/
def epx_A (src : Nat → Nat) (w x y : Nat) : Nat :=
  if 0 < y then src ((y - 1) * w + x) else epx_P src w x y

/-- The right-neighbor `B`, clamped to `P` on the right edge (line 71). -/
def epx_B (src : Nat → Nat) (w x y : Nat) : Nat :=
  if x < w - 1 then src (y * w + x + 1) else epx_P src w x y

/-- The left-neighbor `C`, clamped to `P` on the left edge (line 72). -/
def epx_C (src : Nat → Nat) (w x y : Nat) : Nat :=
  if 0 < x then src (y * w + x - 1) else epx_P src w x y

/-- The down-neighbor `D`, clamped to `P` on the bottom edge (line 73). -/
def epx_D (src : Nat → Nat) (w h x y : Nat) : Nat :=
  if y < h - 1 then src ((y + 1) * w + x) else epx_P src w x y

/-- The boolean EPX rule agrees with its propositional reading. -/
theorem pixels_rule_eq (a b c d e f X Y : Nat) :
    (if pixels_equal a b && !pixels_equal c d && !pixels_equal e f then X else Y) =
      (if a = b ∧ c ≠ d ∧ e ≠ f then X else Y) := by
  by_cases h1 : a = b <;> by_cases h2 : c = d <;> by_cases h3 : e = f <;>
    simp [pixels_equal, h1, h2, h3]

/-- The block function, re-read through the named samples and the
propositional comparisons of the specification. -/
theorem scale2x_block_eq (src : Nat → Nat) (w h x y : Nat) :
    scale2x_block src w h x y =
      ( if epx_C src w x y = epx_A src w x y ∧ epx_C src w x y ≠ epx_D src w h x y ∧
            epx_A src w x y ≠ epx_B src w x y then epx_A src w x y else epx_P src w x y,
        if epx_A src w x y = epx_B src w x y ∧ epx_A src w x y ≠ epx_C src w x y ∧
            epx_B src w x y ≠ epx_D src w h x y then epx_B src w x y else epx_P src w x y,
        if epx_D src w h x y = epx_C src w x y ∧ epx_D src w h x y ≠ epx_B src w x y ∧
            epx_A src w x y ≠ epx_C src w x y then epx_C src w x y else epx_P src w x y,
        if epx_B src w x y = epx_D src w h x y ∧ epx_B src w x y ≠ epx_A src w x y ∧
            epx_D src w h x y ≠ epx_C src w x y then epx_D src w h x y else epx_P src w x y ) := by
  simp only [scale2x_block, epx_P, epx_A, epx_B, epx_C, epx_D, pixels_rule_eq]

/-- Component readings of `scale2x_block_eq`. -/
theorem scale2x_block_eq_1 (src : Nat → Nat) (w h x y : Nat) :
    (scale2x_block src w h x y).1 =
      if epx_C src w x y = epx_A src w x y ∧ epx_C src w x y ≠ epx_D src w h x y ∧
          epx_A src w x y ≠ epx_B src w x y then epx_A src w x y else epx_P src w x y := by
  rw [scale2x_block_eq]

theorem scale2x_block_eq_2 (src : Nat → Nat) (w h x y : Nat) :
    (scale2x_block src w h x y).2.1 =
      if epx_A src w x y = epx_B src w x y ∧ epx_A src w x y ≠ epx_C src w x y ∧
          epx_B src w x y ≠ epx_D src w h x y then epx_B src w x y else epx_P src w x y := by
  rw [scale2x_block_eq]

theorem scale2x_block_eq_3 (src : Nat → Nat) (w h x y : Nat) :
    (scale2x_block src w h x y).2.2.1 =
      if epx_D src w h x y = epx_C src w x y ∧ epx_D src w h x y ≠ epx_B src w x y ∧
          epx_A src w x y ≠ epx_C src w x y then epx_C src w x y else epx_P src w x y := by
  rw [scale2x_block_eq]

theorem scale2x_block_eq_4 (src : Nat → Nat) (w h x y : Nat) :
    (scale2x_block src w h x y).2.2.2 =
      if epx_B src w x y = epx_D src w h x y ∧ epx_B src w x y ≠ epx_A src w x y ∧
          epx_D src w h x y ≠ epx_C src w x y then epx_D src w h x y else epx_P src w x y := by
  rw [scale2x_block_eq]

/-- C1: for every source buffer of width `W ≥ 1` and height `H ≥ 1`, the 2×
upscale produces a `2W × 2H` buffer (every index outside it is untouched) in
which, for each source pixel `P` at `(x, y)` with 4-neighbors `A` (up), `B`
(right), `C` (left), `D` (down) — each replaced by `P` when outside the
buffer — the 2×2 destination block is: top-left `= A` iff `C = A ∧ C ≠ D ∧
A ≠ B` else `P`; top-right `= B` iff `A = B ∧ A ≠ C ∧ B ≠ D` else `P`;
bottom-left `= C` iff `D = C ∧ D ≠ B ∧ C ≠ A` else `P`; bottom-right `= D`
iff `B = D ∧ B ≠ A ∧ D ≠ C` else `P`, with equality being exact pixel-value
equality. -/
theorem scale2x_epx_correct (src dst : Nat → Nat) (w h x y : Nat)
    (hw : 1 ≤ w) (hh : 1 ≤ h) (hx : x < w) (hy : y < h) :
    (scale2x src dst w h (y * 2 * (w * 2) + x * 2) =
        if epx_C src w x y = epx_A src w x y ∧ epx_C src w x y ≠ epx_D src w h x y ∧
            epx_A src w x y ≠ epx_B src w x y then epx_A src w x y else epx_P src w x y) ∧
      (scale2x src dst w h (y * 2 * (w * 2) + x * 2 + 1) =
        if epx_A src w x y = epx_B src w x y ∧ epx_A src w x y ≠ epx_C src w x y ∧
            epx_B src w x y ≠ epx_D src w h x y then epx_B src w x y else epx_P src w x y) ∧
      (scale2x src dst w h ((y * 2 + 1) * (w * 2) + x * 2) =
        if epx_D src w h x y = epx_C src w x y ∧ epx_D src w h x y ≠ epx_B src w x y ∧
            epx_A src w x y ≠ epx_C src w x y then epx_C src w x y else epx_P src w x y) ∧
      (scale2x src dst w h ((y * 2 + 1) * (w * 2) + x * 2 + 1) =
        if epx_B src w x y = epx_D src w h x y ∧ epx_B src w x y ≠ epx_A src w x y ∧
            epx_D src w h x y ≠ epx_C src w x y then epx_D src w h x y else epx_P src w x y) ∧
      (∀ i, h * 2 * (w * 2) ≤ i → scale2x src dst w h i = dst i) := by
  obtain ⟨g0, g1, g2, g3⟩ := scale2x_get src dst w h x y hx hy
  have hb := scale2x_block_eq src w h x y
  refine ⟨?_, ?_, ?_, ?_, fun i hi => scale2x_frame_ge src dst w h i hi⟩
  · rw [g0, hb]
  · rw [g1, hb]
  · rw [g2, hb]
  · rw [g3, hb]

/-- C1 witness: the theorem applied at a concrete 2×2 checkerboard. -/
theorem scale2x_epx_correct_witness :
    1 ≤ 2 ∧ 1 ≤ 2 ∧ 1 < 2 ∧ 0 < 2 ∧
      ((scale2x (fun i => i % 3) (fun _ => 7) 2 2 (0 * 2 * (2 * 2) + 1 * 2) =
        if epx_C (fun i => i % 3) 2 1 0 = epx_A (fun i => i % 3) 2 1 0 ∧
            epx_C (fun i => i % 3) 2 1 0 ≠ epx_D (fun i => i % 3) 2 2 1 0 ∧
            epx_A (fun i => i % 3) 2 1 0 ≠ epx_B (fun i => i % 3) 2 1 0
          then epx_A (fun i => i % 3) 2 1 0 else epx_P (fun i => i % 3) 2 1 0) ∧
      (scale2x (fun i => i % 3) (fun _ => 7) 2 2 (0 * 2 * (2 * 2) + 1 * 2 + 1) =
        if epx_A (fun i => i % 3) 2 1 0 = epx_B (fun i => i % 3) 2 1 0 ∧
            epx_A (fun i => i % 3) 2 1 0 ≠ epx_C (fun i => i % 3) 2 1 0 ∧
            epx_B (fun i => i % 3) 2 1 0 ≠ epx_D (fun i => i % 3) 2 2 1 0
          then epx_B (fun i => i % 3) 2 1 0 else epx_P (fun i => i % 3) 2 1 0) ∧
      (scale2x (fun i => i % 3) (fun _ => 7) 2 2 ((0 * 2 + 1) * (2 * 2) + 1 * 2) =
        if epx_D (fun i => i % 3) 2 2 1 0 = epx_C (fun i => i % 3) 2 1 0 ∧
            epx_D (fun i => i % 3) 2 2 1 0 ≠ epx_B (fun i => i % 3) 2 1 0 ∧
            epx_A (fun i => i % 3) 2 1 0 ≠ epx_C (fun i => i % 3) 2 1 0
          then epx_C (fun i => i % 3) 2 1 0 else epx_P (fun i => i % 3) 2 1 0) ∧
      (scale2x (fun i => i % 3) (fun _ => 7) 2 2 ((0 * 2 + 1) * (2 * 2) + 1 * 2 + 1) =
        if epx_B (fun i => i % 3) 2 1 0 = epx_D (fun i => i % 3) 2 2 1 0 ∧
            epx_B (fun i => i % 3) 2 1 0 ≠ epx_A (fun i => i % 3) 2 1 0 ∧
            epx_D (fun i => i % 3) 2 2 1 0 ≠ epx_C (fun i => i % 3) 2 1 0
          then epx_D (fun i => i % 3) 2 2 1 0 else epx_P (fun i => i % 3) 2 1 0) ∧
      (∀ i, 2 * 2 * (2 * 2) ≤ i → scale2x (fun i => i % 3) (fun _ => 7) 2 2 i = 7)) :=
  ⟨by decide, by decide, by decide, by decide,
    scale2x_epx_correct (fun i => i % 3) (fun _ => 7) 2 2 1 0
      (by decide) (by decide) (by decide) (by decide)⟩

/-- The `while (scale >= 2)` loop of `scale_nx` (scale2x.c lines 159–175):
each pass allocates a fresh destination (uninitialised in C, modelled as the
all-zero buffer — `scale2x` overwrites every in-range entry), runs `scale2x`,
doubles the current dimensions and halves `scale`. -/
def scale_nx_loop (cur : Nat → Nat) (cw ch scale : Nat) : (Nat → Nat) × Nat × Nat :=
  if h2 : 2 ≤ scale then
    scale_nx_loop (scale2x cur (fun _ => 0) cw ch) (cw * 2) (ch * 2) (scale / 2)
  else
    (cur, cw, ch)
termination_by scale
decreasing_by exact Nat.div_lt_self (by omega) (by omega)

/-- `scale_nx` (scale2x.c lines 143–180): `scale < 2` returns a copy of the
source (the `memcpy`, modelled as the same pixel contents) with unchanged
dimensions; otherwise the 2× pass is applied repeatedly. -/
def scale_nx (src : Nat → Nat) (w h scale : Nat) : (Nat → Nat) × Nat × Nat :=
  if scale < 2 then (src, w, h) else scale_nx_loop src w h scale

theorem scale_nx_loop_pow (cur : Nat → Nat) (cw ch : Nat) :
    ∀ p : Nat, ∀ cur : Nat → Nat, ∀ cw ch : Nat,
      (scale_nx_loop cur cw ch (2 ^ p)).2.1 = cw * 2 ^ p ∧
      (scale_nx_loop cur cw ch (2 ^ p)).2.2 = ch * 2 ^ p := by
  intro p
  induction p with
  | zero =>
    intro cur cw ch
    rw [scale_nx_loop]
    norm_num
  | succ n ih =>
    intro cur cw ch
    rw [scale_nx_loop]
    have h2 : 2 ≤ 2 ^ (n + 1) := by
      have : (2 : Nat) ^ 1 ≤ 2 ^ (n + 1) := Nat.pow_le_pow_right (by omega) (by omega)
      simpa using this
    rw [dif_pos h2]
    have hdiv : 2 ^ (n + 1) / 2 = 2 ^ n := by
      rw [pow_succ, Nat.mul_div_cancel]; omega
    rw [hdiv]
    obtain ⟨h1, h2'⟩ := ih (scale2x cur (fun _ => 0) cw ch) (cw * 2) (ch * 2)
    refine ⟨?_, ?_⟩
    · rw [h1, Nat.mul_assoc, ← pow_succ']
    · rw [h2', Nat.mul_assoc, ← pow_succ']

/-- C2: for every source buffer and every power-of-two scale factor `k`,
`scale_nx` produces an output buffer of exactly `W·k × H·k` pixels; for
`k = 4` its output equals applying the single 2× pass twice in succession;
and for every `k < 2` the output is a copy of the source with no rule
application. -/
theorem scale_nx_spec (src : Nat → Nat) (w h k p : Nat) (hk : k = 2 ^ p) :
    ((scale_nx src w h k).2.1 = w * k ∧ (scale_nx src w h k).2.2 = h * k) ∧
      (k = 4 → (scale_nx src w h k).1 =
        scale2x (scale2x src (fun _ => 0) w h) (fun _ => 0) (w * 2) (h * 2)) ∧
      (∀ k' < 2, scale_nx src w h k' = (src, w, h)) := by
  subst hk
  refine ⟨?_, ?_, ?_⟩
  · rcases Nat.eq_zero_or_pos p with hp | hp
    · subst hp
      simp [scale_nx]
    · have h2 : ¬ (2 ^ p < 2) := by
        have : (2 : Nat) ^ 1 ≤ 2 ^ p := Nat.pow_le_pow_right (by omega) hp
        simpa using Nat.not_lt_of_le (by simpa using this)
      rw [scale_nx, if_neg h2]
      exact scale_nx_loop_pow src w h p src w h
  · intro h4
    rw [scale_nx, if_neg (by omega), h4]
    rw [scale_nx_loop, dif_pos (by omega : 2 ≤ 4)]
    norm_num
    rw [scale_nx_loop, dif_pos (by omega : 2 ≤ 2)]
    norm_num
    rw [scale_nx_loop]
    norm_num
  · intro k' hk'
    rw [scale_nx, if_pos hk']

/-- C2 witness: the theorem applied at `w = h = 1`, `k = 4 = 2²`. -/
theorem scale_nx_spec_witness :
    4 = 2 ^ 2 ∧
      (((scale_nx (fun _ => 5) 1 1 4).2.1 = 1 * 4 ∧
          (scale_nx (fun _ => 5) 1 1 4).2.2 = 1 * 4) ∧
        (4 = 4 → (scale_nx (fun _ => 5) 1 1 4).1 =
          scale2x (scale2x (fun _ => 5) (fun _ => 0) 1 1) (fun _ => 0) (1 * 2) (1 * 2)) ∧
        (∀ k' < 2, scale_nx (fun _ => 5) 1 1 k' = (fun _ => 5, 1, 1))) :=
  ⟨by decide, scale_nx_spec (fun _ => 5) 1 1 4 2 (by decide)⟩

/-- A buffer is uniformly `c` on its `w × h` range. -/
def uniform (buf : Nat → Nat) (w h c : Nat) : Prop :=
  ∀ x y : Nat, x < w → y < h → buf (y * w + x) = c

/-- On a uniform source every block value is the source color. -/
theorem scale2x_block_uniform (src : Nat → Nat) (w h c x y : Nat)
    (hx : x < w) (hy : y < h) (hu : uniform src w h c) :
    scale2x_block src w h x y = (c, c, c, c) := by
  have hP : epx_P src w x y = c := hu x y hx hy
  have hA : epx_A src w x y = c := by
    unfold epx_A
    split
    · exact hu x (y - 1) hx (by omega)
    · exact hP
  have hB : epx_B src w x y = c := by
    unfold epx_B
    split
    · have he : y * w + x + 1 = y * w + (x + 1) := by omega
      rw [he]; exact hu (x + 1) y (by omega) hy
    · exact hP
  have hC : epx_C src w x y = c := by
    unfold epx_C
    split
    · have he : y * w + x - 1 = y * w + (x - 1) := by omega
      rw [he]; exact hu (x - 1) y (by omega) hy
    · exact hP
  have hD : epx_D src w h x y = c := by
    unfold epx_D
    split
    · exact hu x (y + 1) hx (by omega)
    · exact hP
  rw [scale2x_block_eq, hP, hA, hB, hC, hD]
  simp

/-- A 2× pass maps a uniform source to a uniform destination. -/
theorem scale2x_uniform (src dst : Nat → Nat) (w h c : Nat)
    (hu : uniform src w h c) :
    uniform (scale2x src dst w h) (w * 2) (h * 2) c := by
  intro X Y hX hY
  have hx : X / 2 < w := by omega
  have hy : Y / 2 < h := by omega
  obtain ⟨g0, g1, g2, g3⟩ := scale2x_get src dst w h (X / 2) (Y / 2) hx hy
  have hblk := scale2x_block_uniform src w h c (X / 2) (Y / 2) hx hy hu
  rcases (by omega : Y % 2 = 0 ∨ Y % 2 = 1) with hYr | hYr <;>
      rcases (by omega : X % 2 = 0 ∨ X % 2 = 1) with hXr | hXr
  · have hY2 : Y / 2 * 2 = Y := by omega
    have hidx : Y * (w * 2) + X = Y / 2 * 2 * (w * 2) + X / 2 * 2 := by
      rw [hY2]; omega
    rw [hidx, g0, hblk]
  · have hY2 : Y / 2 * 2 = Y := by omega
    have hidx : Y * (w * 2) + X = Y / 2 * 2 * (w * 2) + X / 2 * 2 + 1 := by
      rw [hY2]; omega
    rw [hidx, g1, hblk]
  · have hY2 : Y / 2 * 2 + 1 = Y := by omega
    have hidx : Y * (w * 2) + X = (Y / 2 * 2 + 1) * (w * 2) + X / 2 * 2 := by
      rw [hY2]; omega
    rw [hidx, g2, hblk]
  · have hY2 : Y / 2 * 2 + 1 = Y := by omega
    have hidx : Y * (w * 2) + X = (Y / 2 * 2 + 1) * (w * 2) + X / 2 * 2 + 1 := by
      rw [hY2]; omega
    rw [hidx, g3, hblk]

theorem scale_nx_loop_uniform (c : Nat) :
    ∀ p : Nat, ∀ cur : Nat → Nat, ∀ cw ch : Nat, uniform cur cw ch c →
      uniform (scale_nx_loop cur cw ch (2 ^ p)).1 (cw * 2 ^ p) (ch * 2 ^ p) c := by
  intro p
  induction p with
  | zero =>
    intro cur cw ch hu
    rw [scale_nx_loop]
    norm_num
    simpa using hu
  | succ n ih =>
    intro cur cw ch hu
    rw [scale_nx_loop]
    have h2 : 2 ≤ 2 ^ (n + 1) := by
      have : (2 : Nat) ^ 1 ≤ 2 ^ (n + 1) := Nat.pow_le_pow_right (by omega) (by omega)
      simpa using this
    rw [dif_pos h2]
    have hdiv : 2 ^ (n + 1) / 2 = 2 ^ n := by
      rw [pow_succ, Nat.mul_div_cancel]; omega
    rw [hdiv]
    have := ih (scale2x cur (fun _ => 0) cw ch) (cw * 2) (ch * 2)
      (scale2x_uniform cur (fun _ => 0) cw ch c hu)
    have e1 : cw * 2 * 2 ^ n = cw * 2 ^ (n + 1) := by ring
    have e2 : ch * 2 * 2 ^ n = ch * 2 ^ (n + 1) := by ring
    rw [e1, e2] at this
    exact this

/-- C9: for every `W ≥ 1`, `H ≥ 1`, color `c` and power-of-two factor `k`,
upscaling the uniform `W × H` buffer of color `c` yields a buffer of size
`W·k × H·k` that is uniformly `c` (no edge artifacts on uniform input). -/
theorem scale_nx_uniform (src : Nat → Nat) (w h c k p : Nat)
    (hw : 1 ≤ w) (hh : 1 ≤ h) (hk : k = 2 ^ p) (hu : uniform src w h c) :
    uniform (scale_nx src w h k).1 (w * k) (h * k) c := by
  subst hk
  rcases Nat.eq_zero_or_pos p with hp | hp
  · subst hp
    simp only [scale_nx, pow_zero, if_pos (by omega : 1 < 2)]
    simpa using hu
  · have h2 : ¬ (2 ^ p < 2) := by
      have : (2 : Nat) ^ 1 ≤ 2 ^ p := Nat.pow_le_pow_right (by omega) hp
      simpa using Nat.not_lt_of_le (by simpa using this)
    rw [scale_nx, if_neg h2]
    exact scale_nx_loop_uniform c p src w h hu

/-- C9 witness: a uniform 2×3 buffer of color 9, upscaled by 4. -/
theorem scale_nx_uniform_witness :
    1 ≤ 2 ∧ 1 ≤ 3 ∧ 4 = 2 ^ 2 ∧ uniform (fun _ => 9) 2 3 9 ∧
      uniform (scale_nx (fun _ => 9) 2 3 4).1 (2 * 4) (3 * 4) 9 :=
  ⟨by decide, by decide, by decide, fun _ _ _ _ => rfl,
    scale_nx_uniform (fun _ => 9) 2 3 9 4 2 (by decide) (by decide) (by decide)
      (fun _ _ _ _ => rfl)⟩

/-- C10: every destination pixel of the 2× pass equals one of the five
source samples `P`, `A`, `B`, `C`, `D` around the corresponding source pixel
`(X/2, Y/2)`; consequently the output never contains a color value absent
from the in-range source pixels (no blending is ever introduced). -/
theorem scale2x_no_new_colors (src dst : Nat → Nat) (w h X Y : Nat)
    (hX : X < w * 2) (hY : Y < h * 2) :
    (scale2x src dst w h (Y * (w * 2) + X) = epx_P src w (X / 2) (Y / 2) ∨
      scale2x src dst w h (Y * (w * 2) + X) = epx_A src w (X / 2) (Y / 2) ∨
      scale2x src dst w h (Y * (w * 2) + X) = epx_B src w (X / 2) (Y / 2) ∨
      scale2x src dst w h (Y * (w * 2) + X) = epx_C src w (X / 2) (Y / 2) ∨
      scale2x src dst w h (Y * (w * 2) + X) = epx_D src w h (X / 2) (Y / 2)) ∧
      (∃ i < w * h, scale2x src dst w h (Y * (w * 2) + X) = src i) := by
  have hx : X / 2 < w := by omega
  have hy : Y / 2 < h := by omega
  have hfive :
      scale2x src dst w h (Y * (w * 2) + X) = epx_P src w (X / 2) (Y / 2) ∨
      scale2x src dst w h (Y * (w * 2) + X) = epx_A src w (X / 2) (Y / 2) ∨
      scale2x src dst w h (Y * (w * 2) + X) = epx_B src w (X / 2) (Y / 2) ∨
      scale2x src dst w h (Y * (w * 2) + X) = epx_C src w (X / 2) (Y / 2) ∨
      scale2x src dst w h (Y * (w * 2) + X) = epx_D src w h (X / 2) (Y / 2) := by
    obtain ⟨g0, g1, g2, g3⟩ := scale2x_get src dst w h (X / 2) (Y / 2) hx hy
    rcases (by omega : Y % 2 = 0 ∨ Y % 2 = 1) with hYr | hYr <;>
      rcases (by omega : X % 2 = 0 ∨ X % 2 = 1) with hXr | hXr
    · have hY2 : Y / 2 * 2 = Y := by omega
      have hidx : Y * (w * 2) + X = Y / 2 * 2 * (w * 2) + X / 2 * 2 := by
        rw [hY2]; omega
      rw [hidx, g0, scale2x_block_eq_1]
      split
      · exact Or.inr (Or.inl rfl)
      · exact Or.inl rfl
    · have hY2 : Y / 2 * 2 = Y := by omega
      have hidx : Y * (w * 2) + X = Y / 2 * 2 * (w * 2) + X / 2 * 2 + 1 := by
        rw [hY2]; omega
      rw [hidx, g1, scale2x_block_eq_2]
      split
      · exact Or.inr (Or.inr (Or.inl rfl))
      · exact Or.inl rfl
    · have hY2 : Y / 2 * 2 + 1 = Y := by omega
      have hidx : Y * (w * 2) + X = (Y / 2 * 2 + 1) * (w * 2) + X / 2 * 2 := by
        rw [hY2]; omega
      rw [hidx, g2, scale2x_block_eq_3]
      split
      · exact Or.inr (Or.inr (Or.inr (Or.inl rfl)))
      · exact Or.inl rfl
    · have hY2 : Y / 2 * 2 + 1 = Y := by omega
      have hidx : Y * (w * 2) + X = (Y / 2 * 2 + 1) * (w * 2) + X / 2 * 2 + 1 := by
        rw [hY2]; omega
      rw [hidx, g3, scale2x_block_eq_4]
      split
      · exact Or.inr (Or.inr (Or.inr (Or.inr rfl)))
      · exact Or.inl rfl
  refine ⟨hfive, ?_⟩
  have hsample : ∀ x y : Nat, x < w → y < h → y * w + x < w * h := by
    intro x y hxw hyh
    have h1 : y * w + x < (y + 1) * w := by
      have : (y + 1) * w = y * w + w := by ring
      omega
    have h2 : (y + 1) * w ≤ h * w := Nat.mul_le_mul_right _ (by omega)
    have h3 : h * w = w * h := Nat.mul_comm h w
    omega
  rcases hfive with hv | hv | hv | hv | hv
  · exact ⟨Y / 2 * w + X / 2, hsample _ _ hx hy, by rw [hv]; rfl⟩
  · rw [hv]
    unfold epx_A epx_P
    split
    · exact ⟨(Y / 2 - 1) * w + X / 2, hsample _ _ hx (by omega), rfl⟩
    · exact ⟨Y / 2 * w + X / 2, hsample _ _ hx hy, rfl⟩
  · rw [hv]
    unfold epx_B epx_P
    split
    · refine ⟨Y / 2 * w + (X / 2 + 1), hsample _ _ (by omega) hy, ?_⟩
      have : Y / 2 * w + X / 2 + 1 = Y / 2 * w + (X / 2 + 1) := by omega
      rw [this]
    · exact ⟨Y / 2 * w + X / 2, hsample _ _ hx hy, rfl⟩
  · rw [hv]
    unfold epx_C epx_P
    split
    · refine ⟨Y / 2 * w + (X / 2 - 1), hsample _ _ (by omega) hy, ?_⟩
      have : Y / 2 * w + X / 2 - 1 = Y / 2 * w + (X / 2 - 1) := by omega
      rw [this]
    · exact ⟨Y / 2 * w + X / 2, hsample _ _ hx hy, rfl⟩
  · rw [hv]
    unfold epx_D epx_P
    split
    · exact ⟨(Y / 2 + 1) * w + X / 2, hsample _ _ hx (by omega), rfl⟩
    · exact ⟨Y / 2 * w + X / 2, hsample _ _ hx hy, rfl⟩

/-- C10 witness: the theorem applied at a concrete 2×2 buffer. -/
theorem scale2x_no_new_colors_witness :
    3 < 2 * 2 ∧ 2 < 2 * 2 ∧
      ((scale2x (fun i => i * i) (fun _ => 0) 2 2 (2 * (2 * 2) + 3) =
          epx_P (fun i => i * i) 2 (3 / 2) (2 / 2) ∨
        scale2x (fun i => i * i) (fun _ => 0) 2 2 (2 * (2 * 2) + 3) =
          epx_A (fun i => i * i) 2 (3 / 2) (2 / 2) ∨
        scale2x (fun i => i * i) (fun _ => 0) 2 2 (2 * (2 * 2) + 3) =
          epx_B (fun i => i * i) 2 (3 / 2) (2 / 2) ∨
        scale2x (fun i => i * i) (fun _ => 0) 2 2 (2 * (2 * 2) + 3) =
          epx_C (fun i => i * i) 2 (3 / 2) (2 / 2) ∨
        scale2x (fun i => i * i) (fun _ => 0) 2 2 (2 * (2 * 2) + 3) =
          epx_D (fun i => i * i) 2 2 (3 / 2) (2 / 2)) ∧
      (∃ i < 2 * 2, scale2x (fun i => i * i) (fun _ => 0) 2 2 (2 * (2 * 2) + 3) =
        (fun i => i * i) i)) :=
  ⟨by decide, by decide,
    scale2x_no_new_colors (fun i => i * i) (fun _ => 0) 2 2 3 2 (by decide) (by decide)⟩

/-- C truncating `double → int` cast: rounds toward zero. -/
def cint (q : ℚ) : ℤ := if 0 ≤ q then ⌊q⌋ else ⌈q⌉

/-- A clamped viewport rectangle, in source-surface pixel coordinates. -/
structure ClampedViewport where
  x : Int
  y : Int
  w : Int
  h : Int
deriving DecidableEq

/-- The clamping prologue of `scale2x_viewport` (scale2x.c lines 244–251):
negative origins are pulled to zero, the far edge is pulled in, and a
non-positive clamped extent yields `NULL`. -/
def scale2x_viewport_clamp (src_w src_h viewport_x viewport_y viewport_w viewport_h : Int) :
    Option ClampedViewport :=
  let viewport_x := if viewport_x < 0 then 0 else viewport_x
  let viewport_y := if viewport_y < 0 then 0 else viewport_y
  let viewport_w := if viewport_x + viewport_w > src_w then src_w - viewport_x else viewport_w
  let viewport_h := if viewport_y + viewport_h > src_h then src_h - viewport_y else viewport_h
  if viewport_w ≤ 0 ∨ viewport_h ≤ 0 then none
  else some ⟨viewport_x, viewport_y, viewport_w, viewport_h⟩

/-- The extraction loop of `scale2x_viewport` (scale2x.c lines 254–261):
`region[y * viewport_w + x] = src_row(viewport_y + y)[viewport_x + x]`,
written as a function of the flat region index. -/
def extract_region (pix : Int → Int → Nat) (v : ClampedViewport) : Nat → Nat :=
  fun i => pix (v.x + (i % v.w.toNat : Nat)) (v.y + (i / v.w.toNat : Nat))

/-- `scale2x_viewport` (scale2x.c lines 232–285): clamp, extract the region,
upscale it with `scale_nx`; `NULL` when the clamped region is empty. -/
def scale2x_viewport (pix : Int → Int → Nat)
    (src_w src_h viewport_x viewport_y viewport_w viewport_h : Int) (scale : Nat) :
    Option ((Nat → Nat) × Nat × Nat) :=
  match scale2x_viewport_clamp src_w src_h viewport_x viewport_y viewport_w viewport_h with
  | none => none
  | some v => some (scale_nx (extract_region pix v) v.w.toNat v.h.toNat scale)

/-- A successful clamp lies inside the source and has positive extent. -/
theorem viewport_clamp_some_bounds (src_w src_h vx vy vw vh : Int)
    (v : ClampedViewport)
    (hv : scale2x_viewport_clamp src_w src_h vx vy vw vh = some v) :
    0 ≤ v.x ∧ 0 ≤ v.y ∧ 0 < v.w ∧ 0 < v.h ∧
      v.x + v.w ≤ src_w ∧ v.y + v.h ≤ src_h := by
  simp only [scale2x_viewport_clamp] at hv
  split_ifs at hv <;>
    first
      | exact Option.noConfusion hv
      | (injection hv with hv
         subst hv
         dsimp only
         refine ⟨by omega, by omega, by omega, by omega, by omega, by omega⟩)

/-- C3 counterexample: on a 4×4 source, the requested region
`(x, y, w, h) = (-10, 0, 3, 3)` lies entirely outside the source bounds
(`x + w = -7 ≤ 0`), yet the extractor does not return a null result: the
origin is pulled to zero and an in-bounds 3×3 region is extracted. -/
theorem scale2x_viewport_outside_left_nonnull :
    (-10 : Int) + 3 ≤ 0 ∧
      scale2x_viewport_clamp 4 4 (-10) 0 3 3 = some ⟨0, 0, 3, 3⟩ ∧
      (scale2x_viewport (fun _ _ => 0) 4 4 (-10) 0 3 3 2).isSome = true :=
  ⟨by decide, by decide, by decide⟩

/-- C3 (amended): a requested region entirely beyond the far (right or
bottom) edge yields a null result; whenever the clamp succeeds the region
has been clamped inside the source (negative origin pulled to zero, far
edge pulled in) and every pixel read during extraction lies inside the
source buffer.  (A region entirely outside on the left or top is pulled
back to the origin and extracted, not rejected.) -/
theorem scale2x_viewport_clamp_spec (pix : Int → Int → Nat)
    (src_w src_h vx vy vw vh : Int) (scale : Nat)
    (hsw : 0 ≤ src_w) (hsh : 0 ≤ src_h) :
    ((src_w ≤ vx ∨ src_h ≤ vy) →
      scale2x_viewport pix src_w src_h vx vy vw vh scale = none) ∧
      (∀ v : ClampedViewport, scale2x_viewport_clamp src_w src_h vx vy vw vh = some v →
        (0 ≤ v.x ∧ 0 ≤ v.y ∧ 0 < v.w ∧ 0 < v.h ∧
          v.x + v.w ≤ src_w ∧ v.y + v.h ≤ src_h) ∧
        (∀ dx dy : Int, 0 ≤ dx → dx < v.w → 0 ≤ dy → dy < v.h →
          0 ≤ v.x + dx ∧ v.x + dx < src_w ∧ 0 ≤ v.y + dy ∧ v.y + dy < src_h)) := by
  constructor
  · intro hout
    have hclamp : scale2x_viewport_clamp src_w src_h vx vy vw vh = none := by
      simp only [scale2x_viewport_clamp]
      split_ifs <;> first | rfl | omega
    rw [scale2x_viewport, hclamp]
  · intro v hv
    have hfields := viewport_clamp_some_bounds src_w src_h vx vy vw vh v hv
    refine ⟨hfields, fun dx dy h1 h2 h3 h4 => ?_⟩
    obtain ⟨a1, a2, a3, a4, a5, a6⟩ := hfields
    omega

/-- C3 witness: a region straddling the top-left corner of a 4×4 source is
clamped and all extraction reads stay in bounds. -/
theorem scale2x_viewport_clamp_spec_witness :
    (0 : Int) ≤ 4 ∧ (0 : Int) ≤ 4 ∧
      (((4 : Int) ≤ -1 ∨ (4 : Int) ≤ -1 →
        scale2x_viewport (fun _ _ => 1) 4 4 (-1) (-1) 3 3 2 = none) ∧
      (∀ v : ClampedViewport, scale2x_viewport_clamp 4 4 (-1) (-1) 3 3 = some v →
        (0 ≤ v.x ∧ 0 ≤ v.y ∧ 0 < v.w ∧ 0 < v.h ∧
          v.x + v.w ≤ 4 ∧ v.y + v.h ≤ 4) ∧
        (∀ dx dy : Int, 0 ≤ dx → dx < v.w → 0 ≤ dy → dy < v.h →
          0 ≤ v.x + dx ∧ v.x + dx < 4 ∧ 0 ≤ v.y + dy ∧ v.y + dy < 4))) :=
  ⟨by decide, by decide,
    scale2x_viewport_clamp_spec (fun _ _ => 1) 4 4 (-1) (-1) 3 3 2 (by decide) (by decide)⟩

/-- The annotation-list state of a session: the committed stack
`state->paints`, the redo stack `state->redo_paints`, and the pending
annotation `state->temp_paint` (swappy.h lines 238–240).  Annotation
contents are abstract (`α`). -/
structure AnnState (α : Type) where
  paints : List α
  redo_paints : List α
  temp_paint : Option α

/-- `action_undo` (application.c lines 215–225): when the committed list is
non-empty, unlink its head and prepend it to the redo list; the subsequent
`render_state`/`update_ui_undo_redo` calls do not touch the lists. -/
def action_undo {α : Type} (s : AnnState α) : AnnState α :=
  match s.paints with
  | [] => s
  | first :: rest =>
    { s with paints := rest, redo_paints := first :: s.redo_paints }

/-- `action_redo` (application.c lines 227–237): the inverse splice. -/
def action_redo {α : Type} (s : AnnState α) : AnnState α :=
  match s.redo_paints with
  | [] => s
  | first :: rest =>
    { s with redo_paints := rest, paints := first :: s.paints }

/-- Modelled from the spec: `paint_commit_temporary` lives in paint.c, which
is not among the provided sources; per the specification, committing moves
`pending` to the head of `committed` (and is a no-op without a pending
annotation). -/
def paint_commit_temporary {α : Type} (s : AnnState α) : AnnState α :=
  match s.temp_paint with
  | none => s
  | some p => { s with paints := p :: s.paints, temp_paint := none }

/-- `commit_state` (application.c lines 502–507): commit the temporary
paint, then free the redo list (`paint_free_list(&state->redo_paints)`
leaves it empty). -/
def commit_state {α : Type} (s : AnnState α) : AnnState α :=
  let s := paint_commit_temporary s
  { s with redo_paints := [] }

/-- Starting to draw an annotation places it in the pending slot (the
pointer-down path of application.c); used to drive the commit sequences. -/
def set_temp {α : Type} (s : AnnState α) (p : α) : AnnState α :=
  { s with temp_paint := some p }

/-- C4: undo moves the head of the committed stack to the head of the redo
stack and is a no-op when the committed stack is empty; redo performs the
inverse and is a no-op when the redo stack is empty; commit moves the
pending annotation to the head of the committed stack and empties the redo
stack; hence undo followed by redo restores the exact annotation undone,
and after commit(A), commit(B), undo, commit(C) the redo stack is empty and
the committed stack is `[C, A]`. -/
theorem annotation_lists_spec {α : Type} (s : AnnState α) (q A B C : α)
    (rs : List α) (tp : Option α) :
    (s.paints = [] → action_undo s = s) ∧
      (∀ p rest, s.paints = p :: rest →
        action_undo s = ⟨rest, p :: s.redo_paints, s.temp_paint⟩) ∧
      (s.redo_paints = [] → action_redo s = s) ∧
      (∀ p rest, s.redo_paints = p :: rest →
        action_redo s = ⟨p :: s.paints, rest, s.temp_paint⟩) ∧
      (s.temp_paint = some q → commit_state s = ⟨q :: s.paints, [], none⟩) ∧
      (s.paints ≠ [] → action_redo (action_undo s) = s) ∧
      commit_state (set_temp (action_undo (commit_state (set_temp
          (commit_state (set_temp (⟨[], rs, tp⟩ : AnnState α) A)) B))) C) =
        ⟨[C, A], [], none⟩ := by
  obtain ⟨ps, rls, tpp⟩ := s
  refine ⟨?_, ?_, ?_, ?_, ?_, ?_, ?_⟩
  · intro hp
    simp only at hp
    subst hp
    rfl
  · intro p rest hp
    simp only at hp
    subst hp
    rfl
  · intro hr
    simp only at hr
    subst hr
    rfl
  · intro p rest hr
    simp only at hr
    subst hr
    rfl
  · intro ht
    simp only at ht
    subst ht
    rfl
  · intro hne
    cases ps with
    | nil => exact absurd rfl hne
    | cons p rest => rfl
  · rfl

/-- C4 witness: the theorem applied to a concrete state over `Nat`. -/
theorem annotation_lists_spec_witness :
    (AnnState.mk [7] [8] (some 9) : AnnState Nat).temp_paint = some 9 ∧
      commit_state (AnnState.mk [7] [8] (some 9) : AnnState Nat) = ⟨[9, 7], [], none⟩ :=
  ⟨rfl, (annotation_lists_spec (AnnState.mk [7] [8] (some 9)) 9 1 2 3 [] none).2.2.2.2.1 rfl⟩

/-- glib's `CLAMP(x, low, high)`: the high bound is tested first. -/
def qclamp (v lo hi : ℚ) : ℚ := if v > hi then hi else if v < lo then lo else v

/-- `screen_coordinates_to_image_coordinates` (application.c lines 479–500):
undo pan and zoom, then clamp to the original image dimensions. -/
def screen_coordinates_to_image_coordinates (imgW imgH : Int)
    (scaling_factor zoom_level pan_x pan_y screen_x screen_y : ℚ) : ℚ × ℚ :=
  let adjusted_x := (screen_x - pan_x) / (scaling_factor * zoom_level)
  let adjusted_y := (screen_y - pan_y) / (scaling_factor * zoom_level)
  (qclamp adjusted_x 0 (imgW : ℚ), qclamp adjusted_y 0 (imgH : ℚ))

/-- Scroll directions relevant to the zoom branch of the scroll handler. -/
inductive ScrollDir
  | up
  | down
  | other

/-- The unmodified-scroll zoom branch of `draw_area_scroll_handler`
(application.c lines 1222–1247): multiplicative 1.1 step, clamped at 10.0
on the way up and 0.1 on the way down; when the zoom level changed, the pan
offset is re-anchored at the mouse position.  Returns
`(zoom_level, pan_x, pan_y)`. -/
def draw_area_scroll_zoom (direction : ScrollDir)
    (zoom_level pan_x pan_y mouse_x mouse_y : ℚ) : ℚ × ℚ × ℚ :=
  let zoom_factor : ℚ := 11 / 10
  let old_zoom := zoom_level
  let zoom_level :=
    match direction with
    | .up =>
      let z := zoom_level * zoom_factor
      if z > 10 then 10 else z
    | .down =>
      let z := zoom_level / zoom_factor
      if z < 1 / 10 then 1 / 10 else z
    | .other => zoom_level
  if zoom_level ≠ old_zoom then
    let zoom_ratio := zoom_level / old_zoom
    (zoom_level, mouse_x - (mouse_x - pan_x) * zoom_ratio,
      mouse_y - (mouse_y - pan_y) * zoom_ratio)
  else
    (zoom_level, pan_x, pan_y)

/-- The pan re-anchoring formula keeps the screen→image image of the mouse
point unchanged across the zoom-ratio change. -/
theorem anchor_preserves (sf z z1 px mx : ℚ) (hz : z ≠ 0) (hz1 : z1 ≠ 0)
    (hs : sf ≠ 0) :
    (mx - (mx - (mx - px) * (z1 / z))) / (sf * z1) = (mx - px) / (sf * z) := by
  field_simp
  ring

/-- C8: for every zoom scroll step from a zoom level in `[0.1, 10]`, the new
zoom level is the old one multiplied (scroll up) or divided (scroll down) by
the per-notch factor 1.1, clamped to `[0.1, 10]`; and when the zoom level
actually changed, the pan offset becomes
`pan' = mouse - (mouse - pan) * (zoom' / zoom)` in each axis, so that the
image-space point under the cursor, via the screen→image mapping, is exactly
unchanged. -/
theorem scroll_zoom_spec (direction : ScrollDir)
    (zoom panX panY mouseX mouseY z' px' py' : ℚ) (imgW imgH : Int) (sf : ℚ)
    (hr : draw_area_scroll_zoom direction zoom panX panY mouseX mouseY = (z', px', py'))
    (hlo : 1 / 10 ≤ zoom) (hhi : zoom ≤ 10) (hs : sf ≠ 0) :
    (direction = ScrollDir.up → z' = qclamp (zoom * (11 / 10)) (1 / 10) 10) ∧
      (direction = ScrollDir.down → z' = qclamp (zoom / (11 / 10)) (1 / 10) 10) ∧
      (1 / 10 ≤ z' ∧ z' ≤ 10) ∧
      (z' ≠ zoom →
        px' = mouseX - (mouseX - panX) * (z' / zoom) ∧
        py' = mouseY - (mouseY - panY) * (z' / zoom)) ∧
      (z' ≠ zoom →
        screen_coordinates_to_image_coordinates imgW imgH sf z' px' py' mouseX mouseY =
          screen_coordinates_to_image_coordinates imgW imgH sf zoom panX panY mouseX mouseY) := by
  have hz0 : zoom ≠ 0 := by
    intro h
    rw [h] at hlo
    norm_num at hlo
  have hmain : ∀ z1 : ℚ, z1 ≠ 0 →
      screen_coordinates_to_image_coordinates imgW imgH sf z1
          (mouseX - (mouseX - panX) * (z1 / zoom))
          (mouseY - (mouseY - panY) * (z1 / zoom)) mouseX mouseY =
        screen_coordinates_to_image_coordinates imgW imgH sf zoom panX panY mouseX mouseY := by
    intro z1 hz1
    simp only [screen_coordinates_to_image_coordinates]
    rw [anchor_preserves sf zoom z1 panX mouseX hz0 hz1 hs,
      anchor_preserves sf zoom z1 panY mouseY hz0 hz1 hs]
  cases direction with
  | up =>
    simp only [draw_area_scroll_zoom] at hr
    split_ifs at hr with h1 h2 h2 <;>
      (simp only [Prod.mk.injEq] at hr; obtain ⟨hz', hpx, hpy⟩ := hr; subst hz'; subst hpx; subst hpy)
    · refine ⟨fun _ => ?_, fun hd => ScrollDir.noConfusion hd, by norm_num, fun _ => ⟨rfl, rfl⟩,
        fun _ => hmain 10 (by norm_num)⟩
      rw [qclamp, if_pos h1]
    · push_neg at h2
      refine ⟨fun _ => ?_, fun hd => ScrollDir.noConfusion hd, by norm_num,
        fun hne => absurd h2 hne, fun hne => absurd h2 hne⟩
      rw [qclamp, if_pos h1]
    · refine ⟨fun _ => ?_, fun hd => ScrollDir.noConfusion hd, ⟨by linarith, by linarith⟩,
        fun _ => ⟨rfl, rfl⟩, fun _ => hmain (zoom * (11 / 10)) (by intro h0; apply hz0; linarith)⟩
      rw [qclamp, if_neg h1, if_neg (by linarith)]
    · push_neg at h2
      exfalso
      apply hz0
      linarith
  | down =>
    have hdiv : zoom / (11 / 10) = zoom * (10 / 11) := by ring
    simp only [draw_area_scroll_zoom] at hr
    split_ifs at hr with h1 h2 h2 <;>
      (simp only [Prod.mk.injEq] at hr; obtain ⟨hz', hpx, hpy⟩ := hr; subst hz'; subst hpx; subst hpy)
    · refine ⟨fun hd => ScrollDir.noConfusion hd, fun _ => ?_, by norm_num, fun _ => ⟨rfl, rfl⟩,
        fun _ => hmain (1 / 10) (by norm_num)⟩
      rw [qclamp, if_neg (by rw [hdiv]; linarith), if_pos h1]
    · push_neg at h2
      refine ⟨fun hd => ScrollDir.noConfusion hd, fun _ => ?_, by norm_num,
        fun hne => absurd h2 hne, fun hne => absurd h2 hne⟩
      rw [qclamp, if_neg (by rw [hdiv]; linarith), if_pos h1]
    · rw [hdiv] at h1
      refine ⟨fun hd => ScrollDir.noConfusion hd, fun _ => ?_, ?_,
        fun _ => ⟨rfl, rfl⟩, fun _ => hmain (zoom / (11 / 10)) ?_⟩
      · rw [qclamp, if_neg (by rw [hdiv]; linarith), if_neg (by rw [hdiv]; linarith)]
      · rw [hdiv]
        constructor <;> linarith
      · rw [hdiv]
        intro h0
        apply hz0
        linarith
    · push_neg at h2
      rw [hdiv] at h2
      exfalso
      apply hz0
      linarith
  | other =>
    simp only [draw_area_scroll_zoom] at hr
    split_ifs at hr with h1 <;>
      (simp only [Prod.mk.injEq] at hr; obtain ⟨hz', hpx, hpy⟩ := hr; subst hz'; subst hpx; subst hpy)
    · exact absurd rfl h1
    · exact ⟨fun hd => ScrollDir.noConfusion hd, fun hd => ScrollDir.noConfusion hd,
        ⟨hlo, hhi⟩, fun hne => absurd rfl hne, fun hne => absurd rfl hne⟩

/-- C8 witness: a scroll-up step at zoom 1 anchored at mouse (50, 40). -/
theorem scroll_zoom_spec_witness :
    draw_area_scroll_zoom ScrollDir.up 1 3 4 50 40 = (11 / 10, 50 - (50 - 3) * (11 / 10 / 1), 40 - (40 - 4) * (11 / 10 / 1)) ∧
      (1 : ℚ) / 10 ≤ 1 ∧ (1 : ℚ) ≤ 10 ∧ (2 : ℚ) ≠ 0 ∧
      ((ScrollDir.up = ScrollDir.up → (11 / 10 : ℚ) = qclamp (1 * (11 / 10)) (1 / 10) 10) ∧
        (ScrollDir.up = ScrollDir.down → (11 / 10 : ℚ) = qclamp (1 / (11 / 10)) (1 / 10) 10) ∧
        ((1 : ℚ) / 10 ≤ 11 / 10 ∧ (11 / 10 : ℚ) ≤ 10) ∧
        ((11 / 10 : ℚ) ≠ 1 →
          (50 - (50 - 3) * (11 / 10 / 1) : ℚ) = 50 - (50 - 3) * (11 / 10 / 1) ∧
          (40 - (40 - 4) * (11 / 10 / 1) : ℚ) = 40 - (40 - 4) * (11 / 10 / 1)) ∧
        ((11 / 10 : ℚ) ≠ 1 →
          screen_coordinates_to_image_coordinates 100 100 2 (11 / 10)
              (50 - (50 - 3) * (11 / 10 / 1)) (40 - (40 - 4) * (11 / 10 / 1)) 50 40 =
            screen_coordinates_to_image_coordinates 100 100 2 1 3 4 50 40)) :=
  ⟨by norm_num [draw_area_scroll_zoom], by norm_num, by norm_num, by norm_num,
    scroll_zoom_spec ScrollDir.up 1 3 4 50 40 (11 / 10)
      (50 - (50 - 3) * (11 / 10 / 1)) (40 - (40 - 4) * (11 / 10 / 1)) 100 100 2
      (by norm_num [draw_area_scroll_zoom]) (by norm_num) (by norm_num) (by norm_num)⟩

/-- `enum swappy_paint_type` (swappy.h lines 20–31). -/
inductive PaintType
  | pan
  | brush
  | text
  | rectangle
  | ellipse
  | arrow
  | blur
  | line
  | highlighter
  | crop
deriving DecidableEq

/-- `struct swappy_point` (image-space coordinate, a `double` pair). -/
structure SwappyPoint where
  x : ℚ
  y : ℚ

/-- The fields of `struct swappy_paint_shape` used by the crop transform:
the `from`/`to` anchors and the center-anchor flag (swappy.h lines 62–73;
`from`/`to` are reserved words in Lean, hence `fromPt`/`toPt`). -/
structure PaintShape where
  fromPt : SwappyPoint
  toPt : SwappyPoint
  should_center_at_from : Bool

/-- The envelope of `struct swappy_paint` used by the crop transform. -/
structure Paint where
  type : PaintType
  can_draw : Bool
  shape : PaintShape

/-- The session state touched by `action_apply_crop`: pending annotation,
both annotation lists (entries abstract), the Backing Image
(`state->original_image`, dimensions and pixels), and the viewport. -/
structure CropState (π : Type) where
  temp_paint : Option Paint
  paints : List π
  redo_paints : List π
  original_image_w : Int
  original_image_h : Int
  original_image : Int → Int → Nat
  zoom_level : ℚ
  pan_x : ℚ
  pan_y : ℚ

/-- The crop-rectangle resolution and clamping of `action_apply_crop`
(application.c lines 96–119): center-anchored shapes double the extent
around `from`; otherwise min-corner plus absolute difference; then the
origin is pulled to zero and the far edge pulled in. -/
def crop_resolved_rect (shape : PaintShape) (image_width image_height : Int) :
    ℚ × ℚ × ℚ × ℚ :=
  let r :=
    if shape.should_center_at_from then
      (shape.fromPt.x - |shape.fromPt.x - shape.toPt.x|,
        shape.fromPt.y - |shape.fromPt.y - shape.toPt.y|,
        |shape.fromPt.x - shape.toPt.x| * 2,
        |shape.fromPt.y - shape.toPt.y| * 2)
    else
      (min shape.fromPt.x shape.toPt.x,
        min shape.fromPt.y shape.toPt.y,
        |shape.fromPt.x - shape.toPt.x|,
        |shape.fromPt.y - shape.toPt.y|)
  let x := if r.1 < 0 then 0 else r.1
  let y := if r.2.1 < 0 then 0 else r.2.1
  let w := if x + r.2.2.1 > (image_width : ℚ) then (image_width : ℚ) - x else r.2.2.1
  let h := if y + r.2.2.2 > (image_height : ℚ) then (image_height : ℚ) - y else r.2.2.2
  (x, y, w, h)

/-- `action_apply_crop` (application.c lines 89–189): nothing happens
without a drawable pending crop; a non-positive resolved extent discards
the pending annotation only; otherwise the Backing Image is replaced by a
copy of the sub-region, all annotation lists are cleared and the viewport
is reset. -/
def action_apply_crop {π : Type} (s : CropState π) : CropState π :=
  match s.temp_paint with
  | none => s
  | some paint =>
    if paint.type ≠ PaintType.crop ∨ paint.can_draw = false then s
    else
      let r := crop_resolved_rect paint.shape s.original_image_w s.original_image_h
      if r.2.2.1 ≤ 0 ∨ r.2.2.2 ≤ 0 then
        { s with temp_paint := none }
      else
        { s with
          original_image := fun i j => s.original_image (i + cint r.1) (j + cint r.2.1),
          original_image_w := cint r.2.2.1,
          original_image_h := cint r.2.2.2,
          paints := [],
          redo_paints := [],
          temp_paint := none,
          zoom_level := 1,
          pan_x := 0,
          pan_y := 0 }

/-- C6: for every session state with a pending crop annotation, if the
rectangle resolved from from/to (honoring center-anchor mode) and clamped
to the image bounds has non-positive width or height, applying the crop
discards the pending annotation and changes nothing else: Backing Image,
committed list and redo list are all unchanged. -/
theorem crop_zero_area_noop {π : Type} (s : CropState π) (paint : Paint)
    (h1 : s.temp_paint = some paint)
    (h2 : paint.type = PaintType.crop)
    (h3 : paint.can_draw = true)
    (h4 : (crop_resolved_rect paint.shape s.original_image_w s.original_image_h).2.2.1 ≤ 0 ∨
      (crop_resolved_rect paint.shape s.original_image_w s.original_image_h).2.2.2 ≤ 0) :
    (action_apply_crop s).temp_paint = none ∧
      (action_apply_crop s).original_image = s.original_image ∧
      (action_apply_crop s).original_image_w = s.original_image_w ∧
      (action_apply_crop s).original_image_h = s.original_image_h ∧
      (action_apply_crop s).paints = s.paints ∧
      (action_apply_crop s).redo_paints = s.redo_paints := by
  simp only [action_apply_crop, h1]
  rw [if_neg (by simp [h2, h3]), if_pos h4]
  exact ⟨rfl, rfl, rfl, rfl, rfl, rfl⟩

/-- C6 witness: a pending crop whose from/to span has zero width. -/
theorem crop_zero_area_noop_witness :
    (CropState.mk (some (Paint.mk PaintType.crop true
          (PaintShape.mk (SwappyPoint.mk 5 5) (SwappyPoint.mk 5 9) false)))
        [1] [2] 100 100 (fun _ _ => 3) 1 0 0 : CropState Nat).temp_paint =
      some (Paint.mk PaintType.crop true
        (PaintShape.mk (SwappyPoint.mk 5 5) (SwappyPoint.mk 5 9) false)) ∧
    ((crop_resolved_rect (PaintShape.mk (SwappyPoint.mk 5 5) (SwappyPoint.mk 5 9) false)
        100 100).2.2.1 ≤ 0 ∨
      (crop_resolved_rect (PaintShape.mk (SwappyPoint.mk 5 5) (SwappyPoint.mk 5 9) false)
        100 100).2.2.2 ≤ 0) ∧
    ((action_apply_crop (CropState.mk (some (Paint.mk PaintType.crop true
          (PaintShape.mk (SwappyPoint.mk 5 5) (SwappyPoint.mk 5 9) false)))
        [1] [2] 100 100 (fun _ _ => 3) 1 0 0)).temp_paint = none ∧
      (action_apply_crop (CropState.mk (some (Paint.mk PaintType.crop true
          (PaintShape.mk (SwappyPoint.mk 5 5) (SwappyPoint.mk 5 9) false)))
        [1] [2] 100 100 (fun _ _ => 3) 1 0 0)).original_image = (fun _ _ => 3) ∧
      (action_apply_crop (CropState.mk (some (Paint.mk PaintType.crop true
          (PaintShape.mk (SwappyPoint.mk 5 5) (SwappyPoint.mk 5 9) false)))
        [1] [2] 100 100 (fun _ _ => 3) 1 0 0)).original_image_w = 100 ∧
      (action_apply_crop (CropState.mk (some (Paint.mk PaintType.crop true
          (PaintShape.mk (SwappyPoint.mk 5 5) (SwappyPoint.mk 5 9) false)))
        [1] [2] 100 100 (fun _ _ => 3) 1 0 0)).original_image_h = 100 ∧
      (action_apply_crop (CropState.mk (some (Paint.mk PaintType.crop true
          (PaintShape.mk (SwappyPoint.mk 5 5) (SwappyPoint.mk 5 9) false)))
        [1] [2] 100 100 (fun _ _ => 3) 1 0 0)).paints = [1] ∧
      (action_apply_crop (CropState.mk (some (Paint.mk PaintType.crop true
          (PaintShape.mk (SwappyPoint.mk 5 5) (SwappyPoint.mk 5 9) false)))
        [1] [2] 100 100 (fun _ _ => 3) 1 0 0)).redo_paints = [2]) :=
  ⟨rfl, by norm_num [crop_resolved_rect],
    crop_zero_area_noop _ _ rfl rfl rfl (by norm_num [crop_resolved_rect])⟩

/-- What `draw_area_handler` paints (application.c lines 897–981): either a
direct nearest-neighbor blit of the full rendering surface, or a
nearest-neighbor blit of the Scale2x-upscaled viewport, or only the
background when the clamped viewport is empty. -/
inductive DrawCmd
  | direct (scale_x scale_y : ℚ)
  | blitUpscaled (viewport_x viewport_y viewport_w viewport_h : Int)
      (factor : Nat) (draw_x draw_y final_scale : ℚ)
  | backgroundOnly
deriving DecidableEq

/-- Whether a draw command goes through the Viewport Extractor. -/
def DrawCmd.usesExtractor : DrawCmd → Bool
  | .blitUpscaled _ _ _ _ _ _ _ _ => true
  | _ => false

/-- The `while (scale2x_factor < effective_scale && scale2x_factor < 8)`
loop of application.c lines 918–921, unrolled from its start value 2 (the
`< 8` guard stops it after at most two doublings, so the value is 2, 4 or
8). -/
def scale2x_factor (effective_scale : ℚ) : Nat :=
  if 2 < effective_scale then (if 4 < effective_scale then 8 else 4) else 2

/-- The render-path decision of `draw_area_handler` (application.c lines
912–977): above the 1.5 zoom threshold, compute the power-of-two factor,
derive the visible image-space rectangle (padded by 2 pixels), clamp it to
the image, and blit the extracted upscale at
`(base_scale × zoom) / factor`; otherwise blit directly at
`base_scale × zoom`. -/
def draw_area_handler_path (alloc_w alloc_h image_width image_height : Int)
    (zoom_level pan_x pan_y : ℚ) : DrawCmd :=
  let base_scale_x : ℚ := (alloc_w : ℚ) / (image_width : ℚ)
  let base_scale_y : ℚ := (alloc_h : ℚ) / (image_height : ℚ)
  if zoom_level > 3 / 2 then
    let effective_scale := base_scale_x * zoom_level
    let factor := scale2x_factor effective_scale
    let inv_scale := 1 / (base_scale_x * zoom_level)
    let viewport_x := cint (-pan_x * inv_scale)
    let viewport_y := cint (-pan_y * inv_scale)
    let viewport_w := cint ((alloc_w : ℚ) * inv_scale) + 2
    let viewport_h := cint ((alloc_h : ℚ) * inv_scale) + 2
    -- lines 932–937 clamp the viewport to the image bounds and test it for
    -- emptiness with the same four comparisons as scale2x_viewport
    -- (scale2x.c lines 244–251), so the shared clamp is reused here
    match scale2x_viewport_clamp image_width image_height
        viewport_x viewport_y viewport_w viewport_h with
    | some v =>
      DrawCmd.blitUpscaled v.x v.y v.w v.h factor
        (pan_x + (v.x : ℚ) * base_scale_x * zoom_level)
        (pan_y + (v.y : ℚ) * base_scale_y * zoom_level)
        (base_scale_x * zoom_level / (factor : ℚ))
    | none =>
      DrawCmd.backgroundOnly
  else
    DrawCmd.direct (base_scale_x * zoom_level) (base_scale_y * zoom_level)

/-- C5 counterexample: at a zoom level of exactly 1.5 (the threshold), the
draw path blits directly and does not invoke the Viewport Extractor — the
code tests `zoom_level > 1.5` strictly, so "at the threshold" takes the
direct path. -/
theorem draw_path_threshold_counterexample :
    ((3 : ℚ) / 2 ≥ 3 / 2) ∧
      draw_area_handler_path 100 100 100 100 (3 / 2) 0 0 =
        DrawCmd.direct (3 / 2) (3 / 2) ∧
      (draw_area_handler_path 100 100 100 100 (3 / 2) 0 0).usesExtractor = false :=
  ⟨by norm_num, by simp only [draw_area_handler_path]; norm_num,
    by simp only [draw_area_handler_path]; norm_num [DrawCmd.usesExtractor]⟩

/-- C5 (amended): at or below the 1.5 threshold the draw path blits the full
rendering surface directly at `base_scale × zoom`; strictly above the
threshold it computes the effective scale `base_scale × zoom`, rounds it up
to the next power of two at least 2 and capped at 8, extracts the clamped
padded visible rectangle at that factor (or draws only the background when
the clamped rectangle is empty), and blits the result at
`(base_scale × zoom) / factor`. -/
theorem draw_path_spec (alloc_w alloc_h image_width image_height : Int)
    (zoom pan_x pan_y : ℚ) :
    (zoom ≤ 3 / 2 →
      draw_area_handler_path alloc_w alloc_h image_width image_height zoom pan_x pan_y =
        DrawCmd.direct ((alloc_w : ℚ) / (image_width : ℚ) * zoom)
          ((alloc_h : ℚ) / (image_height : ℚ) * zoom)) ∧
      (∀ es : ℚ, (es ≤ 2 → scale2x_factor es = 2) ∧
        (2 < es → es ≤ 4 → scale2x_factor es = 4) ∧ (4 < es → scale2x_factor es = 8)) ∧
      (3 / 2 < zoom → ∀ (vx vy vw vh : Int) (f : Nat) (dx dy fs : ℚ),
        draw_area_handler_path alloc_w alloc_h image_width image_height zoom pan_x pan_y =
            DrawCmd.blitUpscaled vx vy vw vh f dx dy fs →
          f = scale2x_factor ((alloc_w : ℚ) / (image_width : ℚ) * zoom) ∧
          fs = (alloc_w : ℚ) / (image_width : ℚ) * zoom / (f : ℚ) ∧
          fs * (f : ℚ) = (alloc_w : ℚ) / (image_width : ℚ) * zoom ∧
          0 ≤ vx ∧ 0 ≤ vy ∧ 0 < vw ∧ 0 < vh ∧
          vx + vw ≤ image_width ∧ vy + vh ≤ image_height ∧
          dx = pan_x + (vx : ℚ) * ((alloc_w : ℚ) / (image_width : ℚ)) * zoom ∧
          dy = pan_y + (vy : ℚ) * ((alloc_h : ℚ) / (image_height : ℚ)) * zoom) ∧
      (3 / 2 < zoom → ∀ v : ClampedViewport,
        scale2x_viewport_clamp image_width image_height
            (cint (-pan_x * (1 / ((alloc_w : ℚ) / (image_width : ℚ) * zoom))))
            (cint (-pan_y * (1 / ((alloc_w : ℚ) / (image_width : ℚ) * zoom))))
            (cint ((alloc_w : ℚ) * (1 / ((alloc_w : ℚ) / (image_width : ℚ) * zoom))) + 2)
            (cint ((alloc_h : ℚ) * (1 / ((alloc_w : ℚ) / (image_width : ℚ) * zoom))) + 2) =
            some v →
          draw_area_handler_path alloc_w alloc_h image_width image_height zoom pan_x pan_y =
            DrawCmd.blitUpscaled v.x v.y v.w v.h
              (scale2x_factor ((alloc_w : ℚ) / (image_width : ℚ) * zoom))
              (pan_x + (v.x : ℚ) * ((alloc_w : ℚ) / (image_width : ℚ)) * zoom)
              (pan_y + (v.y : ℚ) * ((alloc_h : ℚ) / (image_height : ℚ)) * zoom)
              ((alloc_w : ℚ) / (image_width : ℚ) * zoom /
                (scale2x_factor ((alloc_w : ℚ) / (image_width : ℚ) * zoom) : ℚ))) ∧
      (3 / 2 < zoom →
        scale2x_viewport_clamp image_width image_height
            (cint (-pan_x * (1 / ((alloc_w : ℚ) / (image_width : ℚ) * zoom))))
            (cint (-pan_y * (1 / ((alloc_w : ℚ) / (image_width : ℚ) * zoom))))
            (cint ((alloc_w : ℚ) * (1 / ((alloc_w : ℚ) / (image_width : ℚ) * zoom))) + 2)
            (cint ((alloc_h : ℚ) * (1 / ((alloc_w : ℚ) / (image_width : ℚ) * zoom))) + 2) =
            none →
          draw_area_handler_path alloc_w alloc_h image_width image_height zoom pan_x pan_y =
            DrawCmd.backgroundOnly) := by
  refine ⟨?_, ?_, ?_, ?_, ?_⟩
  · intro hz
    simp only [draw_area_handler_path]
    rw [if_neg (not_lt.mpr hz)]
  · intro es
    refine ⟨fun h => ?_, fun h h2 => ?_, fun h => ?_⟩
    · rw [scale2x_factor, if_neg (not_lt.mpr h)]
    · rw [scale2x_factor, if_pos h, if_neg (not_lt.mpr h2)]
    · rw [scale2x_factor, if_pos (by linarith), if_pos h]
  · intro hz vx vy vw vh f dx dy fs heq
    have hfnz : ∀ q : ℚ, ((scale2x_factor q : Nat) : ℚ) ≠ 0 := by
      intro q
      rw [scale2x_factor]
      split_ifs <;> norm_num
    simp only [draw_area_handler_path] at heq
    rw [if_pos hz] at heq
    cases hc : scale2x_viewport_clamp image_width image_height
        (cint (-pan_x * (1 / ((alloc_w : ℚ) / (image_width : ℚ) * zoom))))
        (cint (-pan_y * (1 / ((alloc_w : ℚ) / (image_width : ℚ) * zoom))))
        (cint ((alloc_w : ℚ) * (1 / ((alloc_w : ℚ) / (image_width : ℚ) * zoom))) + 2)
        (cint ((alloc_h : ℚ) * (1 / ((alloc_w : ℚ) / (image_width : ℚ) * zoom))) + 2) with
    | none =>
      rw [hc] at heq
      exact DrawCmd.noConfusion heq
    | some v =>
      rw [hc] at heq
      obtain ⟨b1, b2, b3, b4, b5, b6⟩ :=
        viewport_clamp_some_bounds _ _ _ _ _ _ v hc
      injection heq with h1 h2 h3 h4 h5 h6 h7 h8
      subst h1; subst h2; subst h3; subst h4; subst h5; subst h6; subst h7; subst h8
      exact ⟨rfl, rfl, div_mul_cancel₀ _ (hfnz _), b1, b2, b3, b4, b5, b6, rfl, rfl⟩
  · intro hz v hv
    simp only [draw_area_handler_path]
    rw [if_pos hz, hv]
  · intro hz hv
    simp only [draw_area_handler_path]
    rw [if_pos hz, hv]

/-- C5 witness: at zoom 1 on a fitted 100×100 image the path is the direct
blit; at zoom 2 the visible rectangle is clamped to `(0, 0, 52, 52)` and the
path is the Scale2x-upscaled viewport blit. -/
theorem draw_path_spec_witness :
    ((1 : ℚ) ≤ 3 / 2 ∧
      draw_area_handler_path 100 100 100 100 1 0 0 =
        DrawCmd.direct (((100 : Int) : ℚ) / ((100 : Int) : ℚ) * 1)
          (((100 : Int) : ℚ) / ((100 : Int) : ℚ) * 1)) ∧
      ((3 : ℚ) / 2 < 2 ∧
        scale2x_viewport_clamp 100 100
            (cint (-0 * (1 / (((100 : Int) : ℚ) / ((100 : Int) : ℚ) * 2))))
            (cint (-0 * (1 / (((100 : Int) : ℚ) / ((100 : Int) : ℚ) * 2))))
            (cint (((100 : Int) : ℚ) * (1 / (((100 : Int) : ℚ) / ((100 : Int) : ℚ) * 2))) + 2)
            (cint (((100 : Int) : ℚ) * (1 / (((100 : Int) : ℚ) / ((100 : Int) : ℚ) * 2))) + 2) =
          some (ClampedViewport.mk 0 0 52 52) ∧
        draw_area_handler_path 100 100 100 100 2 0 0 =
          DrawCmd.blitUpscaled 0 0 52 52
            (scale2x_factor (((100 : Int) : ℚ) / ((100 : Int) : ℚ) * 2))
            (0 + ((0 : Int) : ℚ) * (((100 : Int) : ℚ) / ((100 : Int) : ℚ)) * 2)
            (0 + ((0 : Int) : ℚ) * (((100 : Int) : ℚ) / ((100 : Int) : ℚ)) * 2)
            (((100 : Int) : ℚ) / ((100 : Int) : ℚ) * 2 /
              (scale2x_factor (((100 : Int) : ℚ) / ((100 : Int) : ℚ) * 2) : ℚ))) := by
  have hclamp : scale2x_viewport_clamp 100 100
      (cint (-0 * (1 / (((100 : Int) : ℚ) / ((100 : Int) : ℚ) * 2))))
      (cint (-0 * (1 / (((100 : Int) : ℚ) / ((100 : Int) : ℚ) * 2))))
      (cint (((100 : Int) : ℚ) * (1 / (((100 : Int) : ℚ) / ((100 : Int) : ℚ) * 2))) + 2)
      (cint (((100 : Int) : ℚ) * (1 / (((100 : Int) : ℚ) / ((100 : Int) : ℚ) * 2))) + 2) =
      some (ClampedViewport.mk 0 0 52 52) := by
    norm_num [scale2x_viewport_clamp, cint]
  exact ⟨⟨by norm_num, (draw_path_spec 100 100 100 100 1 0 0).1 (by norm_num)⟩,
    by norm_num, hclamp,
    (draw_path_spec 100 100 100 100 2 0 0).2.2.2.1 (by norm_num)
      (ClampedViewport.mk 0 0 52 52) hclamp⟩

/-- The cairo image formats distinguished by `blur_surface` (render.c lines
36–46). -/
inductive CairoFormat
  | a1
  | a8
  | rgb24
  | argb32
  | other

/-- A cairo image surface: device-pixel dimensions, format, device scale,
and packed 32-bit ARGB pixels addressed as `pix column row`. -/
structure Surface where
  width : Int
  height : Int
  format : CairoFormat
  scale_x : ℚ
  scale_y : ℚ
  pix : Int → Int → Nat

/-- glib `CLAMP` on integers (high bound tested first). -/
def iclamp (v lo hi : Int) : Int := if v > hi then hi else if v < lo then lo else v

/-- A C `for (i = start; i < stop; i += step)` loop threading state; the
`0 < step` guard is vacuous at every use site (the step is at least 1). -/
def intLoop {σ : Type} (f : Int → σ → σ) (stop step : Int) (i : Int) (s : σ) : σ :=
  if h : i < stop ∧ 0 < step then intLoop f stop step (i + step) (f i s) else s
termination_by (stop - i).toNat
decreasing_by omega

/-- Channel sums and pixel count of one pixelation block (render.c lines
80–96). -/
structure BlockAcc where
  sum_a : Nat
  sum_r : Nat
  sum_g : Nat
  sum_b : Nat
  count : Nat

/-- One step of the averaging loop: `(p >> k) & 0xff` is `p / 2^k % 256`. -/
def accum_pixel (p : Nat) (acc : BlockAcc) : BlockAcc :=
  { sum_a := acc.sum_a + p / 2 ^ 24 % 256
    sum_r := acc.sum_r + p / 2 ^ 16 % 256
    sum_g := acc.sum_g + p / 2 ^ 8 % 256
    sum_b := acc.sum_b + p % 256
    count := acc.count + 1 }

/-- The per-block channel sums (render.c lines 86–96). -/
def block_sums (pix : Int → Int → Nat) (i j block_end_y block_end_x : Int) : BlockAcc :=
  intLoop (fun bi acc =>
      intLoop (fun bj acc => accum_pixel (pix bj bi) acc) block_end_x 1 j acc)
    block_end_y 1 i ⟨0, 0, 0, 0, 0⟩

/-- Fill one block of the destination with the average color (render.c
lines 104–110). -/
def fill_block (d : Int → Int → Nat) (v : Nat) (i j block_end_y block_end_x : Int) :
    Int → Int → Nat :=
  intLoop (fun bi d =>
      intLoop (fun bj d => fun X Y => if X = bj ∧ Y = bi then v else d X Y)
        block_end_x 1 j d)
    block_end_y 1 i d

/-- The block-averaging double loop of `blur_surface` (render.c lines
77–113): the destination starts as a copy of the source; each block of the
region is replaced by its average color.  The channel averages are below
256, so the C `|` of the shifted averages is the sum of the shifted
averages. -/
def blur_blocks (src d : Int → Int → Nat)
    (start_y end_y start_x end_x scaled_block : Int) : Int → Int → Nat :=
  intLoop (fun i d =>
      intLoop (fun j d =>
          let acc := block_sums src i j (min (i + scaled_block) end_y)
            (min (j + scaled_block) end_x)
          if acc.count > 0 then
            fill_block d
              (acc.sum_a / acc.count * 2 ^ 24 + acc.sum_r / acc.count * 2 ^ 16 +
                acc.sum_g / acc.count * 2 ^ 8 + acc.sum_b / acc.count)
              i j (min (i + scaled_block) end_y) (min (j + scaled_block) end_x)
          else d)
        end_x scaled_block start_x d)
    end_y scaled_block start_y d

/-- `blur_surface` (render.c lines 18–133): pixelation of the region
`(x, y, width, height)` of `surface`, `NULL` on unsupported formats.  The
result is the pixelated copy cropped to the region; the final
`cairo_set_source_surface(cr, dest_surface, -x, -y)` blit is modelled at
whole-device-pixel offsets. -/
def blur_surface (surface : Surface) (x y width height : ℚ) : Option Surface :=
  match surface.format with
  | .a1 => none
  | .a8 => none
  | .other => none
  | .rgb24 | .argb32 =>
    let src_width := surface.width
    let src_height := surface.height
    let start_x := iclamp (cint (x * surface.scale_x)) 0 src_width
    let start_y := iclamp (cint (y * surface.scale_y)) 0 src_height
    let end_x := iclamp (cint ((x + width) * surface.scale_x)) 0 src_width
    let end_y := iclamp (cint ((y + height) * surface.scale_y)) 0 src_height
    let scaled_block :=
      if cint (12 * surface.scale_x) < 4 then 4 else cint (12 * surface.scale_x)
    let dest := blur_blocks surface.pix surface.pix start_y end_y start_x end_x scaled_block
    some
      { width := cint (width * surface.scale_x)
        height := cint (height * surface.scale_y)
        format := surface.format
        scale_x := surface.scale_x
        scale_y := surface.scale_y
        pix := fun X Y =>
          dest (X + cint (x * surface.scale_x)) (Y + cint (y * surface.scale_y)) }

/-- The blur variant of `struct swappy_paint_blur` (swappy.h lines 84–88):
anchors plus the owned cached surface. -/
structure PaintBlur where
  fromPt : SwappyPoint
  toPt : SwappyPoint
  surface : Option Surface

/-- The envelope of `struct swappy_paint` used by `render_blur`. -/
structure BlurPaint where
  is_committed : Bool
  blur : PaintBlur

/-- What one `render_blur` call draws. -/
inductive BlurAct
  | blitCached (s : Surface) (x y : ℚ)
  | computeAndBlit (s : Surface) (x y : ℚ)
  | skipped
  | placeholderRect (x0 y0 x1 y1 : ℚ)

/-- `render_blur` (render.c lines 436–487): before commit only a translucent
placeholder rectangle over the anchors; after commit, blit the cached
sub-surface if present, otherwise compute it with `blur_surface`, blit it
and cache it on the annotation (nothing is drawn and the cache stays empty
when `blur_surface` fails).  Returns the action and the updated paint. -/
def render_blur (target : Surface) (paint : BlurPaint) : BlurAct × BlurPaint :=
  let blur := paint.blur
  let x := min blur.fromPt.x blur.toPt.x
  let y := min blur.fromPt.y blur.toPt.y
  let w := |blur.fromPt.x - blur.toPt.x|
  let h := |blur.fromPt.y - blur.toPt.y|
  if paint.is_committed then
    match blur.surface with
    | some surface => (BlurAct.blitCached surface x y, paint)
    | none =>
      match blur_surface target x y w h with
      | some blurred =>
        (BlurAct.computeAndBlit blurred x y,
          { paint with blur := { blur with surface := some blurred } })
      | none => (BlurAct.skipped, paint)
  else
    (BlurAct.placeholderRect blur.fromPt.x blur.fromPt.y blur.toPt.x blur.toPt.y, paint)

/-- C7: before commit only a translucent placeholder rectangle is rendered,
never the actual blur; on the first committed redraw the block-averaging
pixelation is computed once and cached on the annotation; and on every
subsequent redraw (with any target, in particular an unchanged one) the
cached sub-surface is blitted unchanged — the same surface value, hence
pixel-identical across consecutive redraws — and the paint is not modified
again. -/
theorem blur_cache_spec (target target2 : Surface) (paint : BlurPaint)
    (s b : Surface) :
    (paint.is_committed = false →
      render_blur target paint =
        (BlurAct.placeholderRect paint.blur.fromPt.x paint.blur.fromPt.y
          paint.blur.toPt.x paint.blur.toPt.y, paint)) ∧
      (paint.is_committed = true → paint.blur.surface = some s →
        render_blur target paint =
          (BlurAct.blitCached s (min paint.blur.fromPt.x paint.blur.toPt.x)
            (min paint.blur.fromPt.y paint.blur.toPt.y), paint)) ∧
      (paint.is_committed = true → paint.blur.surface = none →
        blur_surface target (min paint.blur.fromPt.x paint.blur.toPt.x)
            (min paint.blur.fromPt.y paint.blur.toPt.y)
            |paint.blur.fromPt.x - paint.blur.toPt.x|
            |paint.blur.fromPt.y - paint.blur.toPt.y| = some b →
        render_blur target paint =
          (BlurAct.computeAndBlit b (min paint.blur.fromPt.x paint.blur.toPt.x)
              (min paint.blur.fromPt.y paint.blur.toPt.y),
            ⟨paint.is_committed, ⟨paint.blur.fromPt, paint.blur.toPt, some b⟩⟩)) ∧
      (paint.is_committed = true →
        (render_blur target paint).2.blur.surface = some s →
        (render_blur target2 (render_blur target paint).2).2 =
            (render_blur target paint).2 ∧
          (render_blur target2 (render_blur target paint).2).1 =
            BlurAct.blitCached s (min paint.blur.fromPt.x paint.blur.toPt.x)
              (min paint.blur.fromPt.y paint.blur.toPt.y)) := by
  obtain ⟨ic, fp, tp, srf⟩ := paint
  refine ⟨?_, ?_, ?_, ?_⟩
  · intro hic
    simp only at hic
    subst hic
    rfl
  · intro hic hsrf
    simp only at hic hsrf
    subst hic
    subst hsrf
    rfl
  · intro hic hsrf hbs
    simp only at hic hsrf
    subst hic
    subst hsrf
    simp only [render_blur, if_pos rfl]
    rw [hbs]
    simp
  · intro hic hcache
    simp only at hic
    subst hic
    cases srf with
    | some s0 =>
      simp only [render_blur] at hcache ⊢
      injection hcache with hs0
      subst hs0
      exact ⟨rfl, rfl⟩
    | none =>
      simp only [render_blur] at hcache ⊢
      cases hbs : blur_surface target (min fp.x tp.x) (min fp.y tp.y)
          |fp.x - tp.x| |fp.y - tp.y| with
      | none =>
        rw [hbs] at hcache
        exact Option.noConfusion hcache
      | some b0 =>
        rw [hbs] at hcache
        injection hcache with hb0
        subst hb0
        exact ⟨rfl, rfl⟩

/-- C7 witness: a committed blur annotation with a cached sub-surface is
blitted from the cache, unchanged. -/
theorem blur_cache_spec_witness :
    (BlurPaint.mk true (PaintBlur.mk (SwappyPoint.mk 0 0) (SwappyPoint.mk 1 1)
        (some (Surface.mk 2 2 CairoFormat.argb32 1 1 (fun _ _ => 5))))).is_committed = true ∧
      (BlurPaint.mk true (PaintBlur.mk (SwappyPoint.mk 0 0) (SwappyPoint.mk 1 1)
        (some (Surface.mk 2 2 CairoFormat.argb32 1 1 (fun _ _ => 5))))).blur.surface =
        some (Surface.mk 2 2 CairoFormat.argb32 1 1 (fun _ _ => 5)) ∧
      render_blur (Surface.mk 4 4 CairoFormat.argb32 1 1 (fun _ _ => 9))
          (BlurPaint.mk true (PaintBlur.mk (SwappyPoint.mk 0 0) (SwappyPoint.mk 1 1)
            (some (Surface.mk 2 2 CairoFormat.argb32 1 1 (fun _ _ => 5))))) =
        (BlurAct.blitCached (Surface.mk 2 2 CairoFormat.argb32 1 1 (fun _ _ => 5))
            (min 0 1) (min 0 1),
          BlurPaint.mk true (PaintBlur.mk (SwappyPoint.mk 0 0) (SwappyPoint.mk 1 1)
            (some (Surface.mk 2 2 CairoFormat.argb32 1 1 (fun _ _ => 5))))) :=
  ⟨rfl, rfl,
    (blur_cache_spec (Surface.mk 4 4 CairoFormat.argb32 1 1 (fun _ _ => 9))
        (Surface.mk 4 4 CairoFormat.argb32 1 1 (fun _ _ => 9))
        (BlurPaint.mk true (PaintBlur.mk (SwappyPoint.mk 0 0) (SwappyPoint.mk 1 1)
          (some (Surface.mk 2 2 CairoFormat.argb32 1 1 (fun _ _ => 5)))))
        (Surface.mk 2 2 CairoFormat.argb32 1 1 (fun _ _ => 5))
        (Surface.mk 2 2 CairoFormat.argb32 1 1 (fun _ _ => 5))).2.1 rfl rfl⟩

end Swappy
